import Mathlib

/-!
# Block manager of qng (`services/blkmgr/blkmgr.go`)

A shallow embedding of the block manager: the worker loop `blockHandler`, the
request gateway, the notification reactor `handleNotifyMsg` and the checkpoint
lookup `findNextHeaderCheckpoint`.

The collaborators of the block manager (chain store, mempool, tx manager, fee
estimator, notifier, zmq feed, peer server) are not part of the block manager.
They are represented by a `World`: every collaborator method that returns a
value is a function of the history of events that happened before the call, and
every call the block manager makes is recorded, in program order, as an `Event`.
-/

namespace Blkmgr

/-! ## Data model -/

/-- Value of type `hash.Hash`, kept as a number. -/
abbrev Hash := Nat

/-- Go `error` values that are not nil.  A nil error is `none : Option GoError`. -/
inductive GoError where
  /-- an error produced by a collaborator -/
  | msg (text : String)
  /-- `fmt.Errorf("The tips of block is expired:%s (error:%s)\n", blockHash, cause)` -/
  | tipsExpired (blockHash : Hash) (cause : GoError)
  deriving DecidableEq, Repr

/-- Transaction `*types.Tx`; `hash` is `tx.Hash()`. -/
structure Tx where
  hash : Hash
  deriving DecidableEq, Repr

/-- Descriptor `*types.TxDesc` of a transaction accepted by the mempool. -/
structure TxDesc where
  tx : Tx
  deriving DecidableEq, Repr

/-- Block `*types.SerializedBlock`: `hash` is `Hash()`, `header` is
`Block().Header`, `parents` is `Block().Parents`, `transactions` is
`Transactions()`. -/
structure Block where
  hash : Hash
  header : Nat
  parents : List Hash
  transactions : List Tx
  deriving DecidableEq, Repr

/-- Behaviour flags `blockchain.BehaviorFlags`, a bit mask. -/
abbrev BehaviorFlags := Nat

/-- Response `ProcessBlockResponse` sent to the reply channel of a `processBlockMsg`. -/
structure ProcessBlockResponse where
  IsOrphan : Bool
  Err : Option GoError
  IsTipsExpired : Bool
  deriving DecidableEq, Repr

/-- Response `processTransactionResponse` sent to the reply channel of a
`processTransactionMsg`. -/
structure processTransactionResponse where
  acceptedTxs : List TxDesc
  err : Option GoError
  deriving DecidableEq, Repr

/-- Reply channels are identified by a number. -/
abbrev Chan := Nat

/-- Messages of `msgChan` (`chan interface{}`): the three request envelopes and
any other value, which the worker logs as an unknown message type. -/
inductive Msg where
  | processBlockMsg (block : Block) (flags : BehaviorFlags) (reply : Chan)
  | processTransactionMsg (tx : Tx) (allowOrphans rateLimit allowHighFees : Bool)
      (reply : Chan)
  | isCurrentMsg (isCurrentReply : Chan)
  | unknown (tag : Nat)
  deriving DecidableEq, Repr

/-- Value sent on a reply channel. -/
inductive ReplyVal where
  | block (r : ProcessBlockResponse)
  | tx (r : processTransactionResponse)
  | current (v : Bool)
  deriving DecidableEq, Repr

/-- Observable events of the block manager, in program order: the calls it makes
on its collaborators, the messages it takes from `msgChan` and the values it
sends on reply channels. -/
inductive Event where
  /-- `m := <-b.msgChan` -/
  | recv (m : Msg)
  /-- `reply <- v` -/
  | send (reply : Chan) (v : ReplyVal)
  /-- `b.wg.Done()` -/
  | wgDone
  /-- `b.chain.BlockDAG().CheckSubMainChainTip(parents)` -/
  | CheckSubMainChainTip (parents : List Hash)
  /-- `b.chain.ProcessBlock(block, flags)` -/
  | ChainProcessBlock (block : Block) (flags : BehaviorFlags)
  /-- `MemPool().PruneExpiredTx()` -/
  | PruneExpiredTx
  /-- `MemPool().ProcessTransaction(tx, allowOrphans, rateLimit, allowHighFees)` -/
  | MemPoolProcessTransaction (tx : Tx) (allowOrphans rateLimit allowHighFees : Bool)
  /-- `b.peerServer.IsCurrent()` -/
  | PeerIsCurrent
  /-- `b.progressLogger.LogBlockHeight(block)` -/
  | LogBlockHeight (block : Block)
  /-- `b.zmqNotify.BlockAccepted(block)` -/
  | ZmqBlockAccepted (block : Block)
  /-- `b.notify.RelayInventory(header, nil)` -/
  | RelayInventory (header : Nat)
  /-- `MemPool().RemoveTransaction(tx, removeRedeemers)` -/
  | RemoveTransaction (tx : Tx) (removeRedeemers : Bool)
  /-- `MemPool().RemoveDoubleSpends(tx)` -/
  | RemoveDoubleSpends (tx : Tx)
  /-- `MemPool().RemoveOrphan(txHash)` -/
  | RemoveOrphan (txHash : Hash)
  /-- `b.notify.TransactionConfirmed(tx)` -/
  | TransactionConfirmed (tx : Tx)
  /-- `MemPool().ProcessOrphans(txHash)` -/
  | ProcessOrphans (txHash : Hash)
  /-- `b.notify.AnnounceNewTransactions(txds, nil)` -/
  | AnnounceNewTransactions (txds : List TxDesc)
  /-- `b.txManager.FeeEstimator().RegisterBlock(block)` -/
  | RegisterBlock (block : Block)
  /-- `b.txManager.InitDefaultFeeEstimator()` -/
  | InitDefaultFeeEstimator
  /-- `b.zmqNotify.BlockConnected(block)` -/
  | ZmqBlockConnected (block : Block)
  /-- `b.txManager.FeeEstimator().Rollback(blockHash)` -/
  | Rollback (blockHash : Hash)
  /-- `b.zmqNotify.BlockDisconnected(block)` -/
  | ZmqBlockDisconnected (block : Block)
  deriving DecidableEq, Repr

/-- Result of a call that may fault: it returns a value or panics. -/
inductive Outcome (α : Type) where
  | returned (a : α)
  | panicked
  deriving DecidableEq, Repr

/-- The collaborators of the block manager.  Each method that returns a value is
given the events that happened before the call.  The flag test `Has` and the two
flag constants belong to package `blockchain`. -/
structure World where
  /-- method `flags.Has(value)` of `blockchain.BehaviorFlags` -/
  Has : BehaviorFlags → BehaviorFlags → Bool
  /-- constant `blockchain.BFRPCAdd` -/
  BFRPCAdd : BehaviorFlags
  /-- constant `blockchain.BFP2PAdd` -/
  BFP2PAdd : BehaviorFlags
  /-- `BlockDAG().CheckSubMainChainTip(parents)`: nil or an error -/
  checkSubMainChainTip : List Event → List Hash → Option GoError
  /-- `chain.ProcessBlock(block, flags)`: `(isOrphan, err)`, or a panic -/
  chainProcessBlock : List Event → Block → BehaviorFlags → Outcome (Bool × Option GoError)
  /-- `MemPool().ProcessTransaction(tx, allowOrphans, rateLimit, allowHighFees)` -/
  mempoolProcessTransaction :
    List Event → Tx → Bool → Bool → Bool → List TxDesc × Option GoError
  /-- `peerServer.IsCurrent()` -/
  peerIsCurrent : List Event → Bool
  /-- `MemPool().ProcessOrphans(txHash)` -/
  processOrphans : List Event → Hash → List TxDesc
  /-- whether `txManager.FeeEstimator()` is not nil -/
  hasFeeEstimator : List Event → Bool
  /-- `FeeEstimator().RegisterBlock(block)`: nil or an error -/
  registerBlock : List Event → Block → Option GoError
  /-- `roughtime.Now()` -/
  now : List Event → Nat

/-! ## Worker loop -/

/-- What one pass through the body of the worker loop did: the events it
produced and whether it ended in an uncaught panic. -/
structure Step where
  events : List Event
  faulted : Bool
  deriving DecidableEq, Repr

/-- The part of the `processBlockMsg` case from the call of `b.chain.ProcessBlock`
on; `pre` holds the events this pass has produced so far. -/
def processBlockCall (w : World) (h pre : List Event) (block : Block)
    (flags : BehaviorFlags) (reply : Chan) : Step :=
  match w.chainProcessBlock (h ++ pre) block flags with
  | .panicked => ⟨pre ++ [.ChainProcessBlock block flags], true⟩
  | .returned (isOrphan, some err) =>
      ⟨pre ++ [.ChainProcessBlock block flags,
        .send reply (.block ⟨isOrphan, some err, false⟩)], false⟩
  | .returned (isOrphan, none) =>
      ⟨pre ++ [.ChainProcessBlock block flags]
        ++ (if !isOrphan then [.PruneExpiredTx] else [])
        ++ [.send reply (.block ⟨isOrphan, none, false⟩)], false⟩

/-- The `switch msg := m.(type)` of `blockHandler`, for a message `m` taken from
`msgChan` after the events `h`. -/
def handleMsg (w : World) (h : List Event) : Msg → Step
  | .processBlockMsg block flags reply =>
      if w.Has flags w.BFRPCAdd then
        match w.checkSubMainChainTip h block.parents with
        | some err =>
            ⟨[.CheckSubMainChainTip block.parents,
              .send reply (.block ⟨false, some (.tipsExpired block.hash err), true⟩)], false⟩
        | none => processBlockCall w h [.CheckSubMainChainTip block.parents] block flags reply
      else processBlockCall w h [] block flags reply
  | .processTransactionMsg tx allowOrphans rateLimit allowHighFees reply =>
      let r := w.mempoolProcessTransaction h tx allowOrphans rateLimit allowHighFees
      ⟨[.MemPoolProcessTransaction tx allowOrphans rateLimit allowHighFees,
        .send reply (.tx ⟨r.1, r.2⟩)], false⟩
  | .isCurrentMsg isCurrentReply =>
      ⟨[.PeerIsCurrent, .send isCurrentReply (.current (w.peerIsCurrent h))], false⟩
  | .unknown _ => ⟨[], false⟩

/-- What the `select` of the worker loop yields next: a message from `msgChan`
or the closing of `quit`. -/
inductive Select where
  | msg (m : Msg)
  | quit
  deriving DecidableEq, Repr

/-- How a run of the worker ended: still waiting in `select`, left the loop on
`quit`, or killed by an uncaught panic. -/
inductive Exit where
  | waiting
  | stopped
  | crashed
  deriving DecidableEq, Repr

/-- The worker `blockHandler`, fed the successive outcomes of its `select`,
starting after the events `h`.  Returns all events and how the run ended. -/
def blockHandler (w : World) : List Event → List Select → List Event × Exit
  | h, [] => (h, .waiting)
  | h, .quit :: _ => (h ++ [.wgDone], .stopped)
  | h, .msg m :: rest =>
      let s := handleMsg w (h ++ [.recv m]) m
      if s.faulted then (h ++ [.recv m] ++ s.events, .crashed)
      else blockHandler w (h ++ [.recv m] ++ s.events) rest

/-! ## Worker loop with faulting collaborators -/

/-- Which calls of the worker on its collaborators panic instead of returning,
each as a function of the events before the call: the tip check of line 339,
`PruneExpiredTx` of line 365, the mempool's `ProcessTransaction` of line 387 and
`peerServer.IsCurrent()` of line 395.  A nil `txManager`, as `NewBlockManager`
leaves it until `SetTxManager`, makes both mempool calls panic.  A panic of
`chain.ProcessBlock` is an outcome of `World.chainProcessBlock`. -/
structure Faults where
  checkSubMainChainTip : List Event → List Hash → Bool
  pruneExpiredTx : List Event → Bool
  mempoolProcessTransaction : List Event → Tx → Bool → Bool → Bool → Bool
  peerIsCurrent : List Event → Bool

/-- None of the calls panics. -/
def Faults.quiet (f : Faults) : Prop :=
  (∀ h parents, f.checkSubMainChainTip h parents = false) ∧
  (∀ h, f.pruneExpiredTx h = false) ∧
  (∀ h tx allowOrphans rateLimit allowHighFees,
    f.mempoolProcessTransaction h tx allowOrphans rateLimit allowHighFees = false) ∧
  (∀ h, f.peerIsCurrent h = false)

/-- The part of the `processBlockMsg` case from the call of `b.chain.ProcessBlock`
on, when the collaborators may panic.  A panic ends the pass at the call: the
worker has no `recover`. -/
def processBlockCallF (w : World) (f : Faults) (h pre : List Event) (block : Block)
    (flags : BehaviorFlags) (reply : Chan) : Step :=
  match w.chainProcessBlock (h ++ pre) block flags with
  | .panicked => ⟨pre ++ [.ChainProcessBlock block flags], true⟩
  | .returned (isOrphan, some err) =>
      ⟨pre ++ [.ChainProcessBlock block flags,
        .send reply (.block ⟨isOrphan, some err, false⟩)], false⟩
  | .returned (isOrphan, none) =>
      if !isOrphan then
        if f.pruneExpiredTx (h ++ pre ++ [.ChainProcessBlock block flags]) then
          ⟨pre ++ [.ChainProcessBlock block flags, .PruneExpiredTx], true⟩
        else
          ⟨pre ++ [.ChainProcessBlock block flags, .PruneExpiredTx,
            .send reply (.block ⟨isOrphan, none, false⟩)], false⟩
      else
        ⟨pre ++ [.ChainProcessBlock block flags,
          .send reply (.block ⟨isOrphan, none, false⟩)], false⟩

/-- The `switch msg := m.(type)` of `blockHandler` when the collaborators may
panic. -/
def handleMsgF (w : World) (f : Faults) (h : List Event) : Msg → Step
  | .processBlockMsg block flags reply =>
      if w.Has flags w.BFRPCAdd then
        if f.checkSubMainChainTip h block.parents then
          ⟨[.CheckSubMainChainTip block.parents], true⟩
        else
          match w.checkSubMainChainTip h block.parents with
          | some err =>
              ⟨[.CheckSubMainChainTip block.parents,
                .send reply (.block ⟨false, some (.tipsExpired block.hash err), true⟩)], false⟩
          | none =>
              processBlockCallF w f h [.CheckSubMainChainTip block.parents] block flags reply
      else processBlockCallF w f h [] block flags reply
  | .processTransactionMsg tx allowOrphans rateLimit allowHighFees reply =>
      if f.mempoolProcessTransaction h tx allowOrphans rateLimit allowHighFees then
        ⟨[.MemPoolProcessTransaction tx allowOrphans rateLimit allowHighFees], true⟩
      else
        let r := w.mempoolProcessTransaction h tx allowOrphans rateLimit allowHighFees
        ⟨[.MemPoolProcessTransaction tx allowOrphans rateLimit allowHighFees,
          .send reply (.tx ⟨r.1, r.2⟩)], false⟩
  | .isCurrentMsg isCurrentReply =>
      if f.peerIsCurrent h then ⟨[.PeerIsCurrent], true⟩
      else ⟨[.PeerIsCurrent, .send isCurrentReply (.current (w.peerIsCurrent h))], false⟩
  | .unknown _ => ⟨[], false⟩

/-- The worker `blockHandler` when the collaborators may panic. -/
def blockHandlerF (w : World) (f : Faults) : List Event → List Select → List Event × Exit
  | h, [] => (h, .waiting)
  | h, .quit :: _ => (h ++ [.wgDone], .stopped)
  | h, .msg m :: rest =>
      let s := handleMsgF w f (h ++ [.recv m]) m
      if s.faulted then (h ++ [.recv m] ++ s.events, .crashed)
      else blockHandlerF w f (h ++ [.recv m] ++ s.events) rest

/-! ## Request gateway -/

/-- Receive `<-reply` by the caller of the gateway: the first value the events
`evs` send on the channel `reply`, if any. -/
def chanRecv (reply : Chan) (evs : List Event) : Option ReplyVal :=
  evs.findSome? fun e =>
    match e with
    | .send c v => if c = reply then some v else none
    | _ => none

/-- Gateway `BlockManager.ProcessBlock`: the caller makes the channel `reply`,
puts a `processBlockMsg` on `msgChan`, the worker (which produced `h` so far)
takes and handles it, and the caller returns what arrives on `reply`.  Returns
the events of the worker and the caller's result (`none`: nothing arrives). -/
def ProcessBlock (w : World) (h : List Event) (reply : Chan) (block : Block)
    (flags : BehaviorFlags) : List Event × Option ProcessBlockResponse :=
  let m := Msg.processBlockMsg block flags reply
  let s := handleMsg w (h ++ [.recv m]) m
  (Event.recv m :: s.events,
    match chanRecv reply s.events with
    | some (.block response) => some response
    | _ => none)

/-- Gateway `BlockManager.ProcessTransaction`, in the same way; the caller
returns `response.acceptedTxs, response.err`. -/
def ProcessTransaction (w : World) (h : List Event) (reply : Chan) (tx : Tx)
    (allowOrphans rateLimit allowHighFees : Bool) :
    List Event × Option (List TxDesc × Option GoError) :=
  let m := Msg.processTransactionMsg tx allowOrphans rateLimit allowHighFees reply
  let s := handleMsg w (h ++ [.recv m]) m
  (Event.recv m :: s.events,
    match chanRecv reply s.events with
    | some (.tx response) => some (response.acceptedTxs, response.err)
    | _ => none)

/-- Gateway `BlockManager.Current`. -/
def Current (w : World) (h : List Event) (reply : Chan) : List Event × Option Bool :=
  let m := Msg.isCurrentMsg reply
  let s := handleMsg w (h ++ [.recv m]) m
  (Event.recv m :: s.events,
    match chanRecv reply s.events with
    | some (.current v) => some v
    | _ => none)

/-! ## Block manager state and checkpoints -/

/-- Checkpoint `params.Checkpoint`. -/
structure Checkpoint where
  Layer : Nat
  Hash : Hash
  deriving DecidableEq, Repr

/-- Node `headerNode` of the header list. -/
structure headerNode where
  height : Nat
  hash : Hash
  deriving DecidableEq, Repr

/-- The fields of `BlockManager` that its own code reads or writes:
`config.DisableCheckpoints`, `params.Checkpoints`, the headers-first fields and
`lastProgressTime`. -/
structure BlockManager where
  DisableCheckpoints : Bool
  Checkpoints : List Checkpoint
  headersFirstMode : Bool
  headerList : List headerNode
  startHeader : Option headerNode
  nextCheckpoint : Option Checkpoint
  lastProgressTime : Nat
  deriving DecidableEq, Repr

/-- The loop `for i := len(checkpoints) - 2; i >= 0; i--` of
`findNextHeaderCheckpoint`.  The counter is `i + 1`, so `0` means `i < 0`. -/
def findNextLoop (checkpoints : List Checkpoint) (layer : Nat) :
    Nat → Checkpoint → Checkpoint
  | 0, nextCheckpoint => nextCheckpoint
  | i + 1, nextCheckpoint =>
      match checkpoints[i]? with
      | some c =>
          if layer ≥ c.Layer then nextCheckpoint
          else findNextLoop checkpoints layer i c
      | none => nextCheckpoint

/-- Lookup `findNextHeaderCheckpoint(layer)`; `none` is the nil pointer. -/
def findNextHeaderCheckpoint (b : BlockManager) (layer : Nat) : Option Checkpoint :=
  if b.DisableCheckpoints then none
  else
    match b.Checkpoints.getLast? with
    | none => none
    | some finalCheckpoint =>
        if layer ≥ finalCheckpoint.Layer then none
        else some (findNextLoop b.Checkpoints layer (b.Checkpoints.length - 1) finalCheckpoint)

/-- Method `resetHeaderState(newestHash, newestHeight)`. -/
def resetHeaderState (b : BlockManager) (newestHash : Hash) (newestHeight : Nat) :
    BlockManager :=
  let b1 := { b with headersFirstMode := false, headerList := [], startHeader := none }
  if b1.nextCheckpoint.isSome then
    { b1 with headerList := b1.headerList ++ [⟨newestHeight, newestHash⟩] }
  else b1

/-! ## Notification reactor -/

/-- Kind `blockchain.NotificationType` of a notification. -/
inductive NotificationType where
  | BlockAccepted
  | BlockConnected
  | BlockDisconnected
  | Reorganization
  | other (n : Nat)
  deriving DecidableEq, Repr

/-- Payload `*blockchain.BlockAcceptedNotifyData`. -/
structure BlockAcceptedNotifyData where
  Block : Block
  Flags : BehaviorFlags
  deriving DecidableEq, Repr

/-- Element of a `[]interface{}` payload, by dynamic type. -/
inductive Elem where
  | block (b : Block)
  | bool (v : Bool)
  | other (tag : Nat)
  deriving DecidableEq, Repr

/-- Payload `notification.Data` (`interface{}`), by dynamic type. -/
inductive Data where
  | acceptedData (band : BlockAcceptedNotifyData)
  | slice (blockSlice : List Elem)
  | block (b : Block)
  | other (tag : Nat)
  deriving DecidableEq, Repr

/-- Notification `blockchain.Notification`. -/
structure Notification where
  type : NotificationType
  Data : Data
  deriving DecidableEq, Repr

/-- What `handleNotifyMsg` did: the block manager afterwards, the events it
produced and whether it ended in an uncaught panic. -/
structure NotifyStep where
  b : BlockManager
  events : List Event
  faulted : Bool
  deriving DecidableEq, Repr

/-- The loop `for _, tx := range block.Transactions()[1:]` of the connected
case, over the remaining transactions; `evs` are the events produced so far and
`txds` the descriptors collected so far. -/
def connectedTxLoop (w : World) (h : List Event) :
    List Tx → List Event → List TxDesc → List Event × List TxDesc
  | [], evs, txds => (evs, txds)
  | tx :: rest, evs, txds =>
      let evs1 := evs ++ [.RemoveTransaction tx false, .RemoveDoubleSpends tx,
        .RemoveOrphan tx.hash, .TransactionConfirmed tx]
      let acceptedTxs := w.processOrphans (h ++ evs1) tx.hash
      connectedTxLoop w h rest (evs1 ++ [.ProcessOrphans tx.hash]) (txds ++ acceptedTxs)

/-- The connected case of `handleNotifyMsg` from `txds := []*types.TxDesc{}` on,
for the block `block` and the second slice element `flag`. -/
def connectedBody (w : World) (b : BlockManager) (h : List Event) (block : Block)
    (flag : Option Elem) : NotifyStep :=
  match block.transactions with
  | [] => ⟨b, [], true⟩
  | _ :: txs =>
      let r := connectedTxLoop w h txs [] []
      let evs := r.1 ++ [.AnnounceNewTransactions r.2]
      if w.hasFeeEstimator (h ++ evs) then
        match flag with
        | some (.bool true) =>
            match w.registerBlock (h ++ evs) block with
            | some _ =>
                ⟨b, evs ++ [.RegisterBlock block, .InitDefaultFeeEstimator,
                  .ZmqBlockConnected block], false⟩
            | none => ⟨b, evs ++ [.RegisterBlock block, .ZmqBlockConnected block], false⟩
        | some (.bool false) => ⟨b, evs ++ [.ZmqBlockConnected block], false⟩
        | _ => ⟨b, evs, true⟩
      else ⟨b, evs ++ [.ZmqBlockConnected block], false⟩

/-- Reactor `handleNotifyMsg(notification)`, called after the events `h`.  A
failed unchecked type assertion and a slice expression out of range panic. -/
def handleNotifyMsg (w : World) (b : BlockManager) (h : List Event)
    (notification : Notification) : NotifyStep :=
  match notification.type with
  | .BlockAccepted =>
      match notification.Data with
      | .acceptedData band =>
          let block := band.Block
          let p2p := band.Flags &&& w.BFP2PAdd == w.BFP2PAdd
          let pre : List Event := if p2p then [.LogBlockHeight block] else []
          let b1 := if p2p then { b with lastProgressTime := w.now (h ++ pre) } else b
          let evs := pre ++ [.ZmqBlockAccepted block]
          if !w.peerIsCurrent (h ++ evs) then ⟨b1, evs ++ [.PeerIsCurrent], false⟩
          else ⟨b1, evs ++ [.PeerIsCurrent, .RelayInventory block.header], false⟩
      | _ => ⟨b, [], false⟩
  | .BlockConnected =>
      match notification.Data with
      | .slice blockSlice =>
          if blockSlice.length ≠ 2 then ⟨b, [], false⟩
          else
            match (blockSlice[0]? : Option Elem) with
            | some (.block block) => connectedBody w b h block blockSlice[1]?
            | _ => ⟨b, [], true⟩
      | _ => ⟨b, [], false⟩
  | .BlockDisconnected =>
      match notification.Data with
      | .block block =>
          let pre : List Event :=
            if w.hasFeeEstimator h then [.Rollback block.hash] else []
          ⟨b, pre ++ [.ZmqBlockDisconnected block], false⟩
      | _ => ⟨b, [], false⟩
  | .Reorganization => ⟨b, [], false⟩
  | .other _ => ⟨b, [], false⟩

/-! ## Observations on event lists -/

/-- The values sent on reply channels, with their channel, in order. -/
def sends (evs : List Event) : List (Chan × ReplyVal) :=
  evs.filterMap fun e =>
    match e with
    | .send c v => some (c, v)
    | _ => none

/-- The arguments of the calls of `chain.ProcessBlock`, in order. -/
def chainCalls (evs : List Event) : List (Block × BehaviorFlags) :=
  evs.filterMap fun e =>
    match e with
    | .ChainProcessBlock block flags => some (block, flags)
    | _ => none

/-- The arguments of the calls of `MemPool().ProcessTransaction`, in order. -/
def mempoolCalls (evs : List Event) : List (Tx × Bool × Bool × Bool) :=
  evs.filterMap fun e =>
    match e with
    | .MemPoolProcessTransaction tx a r f => some (tx, a, r, f)
    | _ => none

/-- The headers passed to `RelayInventory`, in order. -/
def relayCalls (evs : List Event) : List Nat :=
  evs.filterMap fun e =>
    match e with
    | .RelayInventory header => some header
    | _ => none

/-- The transactions passed to the notifier's `TransactionConfirmed`, in order. -/
def confirmedCalls (evs : List Event) : List Tx :=
  evs.filterMap fun e =>
    match e with
    | .TransactionConfirmed tx => some tx
    | _ => none

/-- Calls on the chain store: the tip check and `ProcessBlock`. -/
def Event.isChainCall : Event → Bool
  | .CheckSubMainChainTip _ => true
  | .ChainProcessBlock _ _ => true
  | _ => false

/-- Events of the queue protocol: taking a message and sending a reply. -/
def Event.isQueue : Event → Bool
  | .recv _ => true
  | .send _ _ => true
  | _ => false

/-- The five calls made for each transaction of a connected block. -/
def Event.isPerTx : Event → Bool
  | .RemoveTransaction _ _ => true
  | .RemoveDoubleSpends _ => true
  | .RemoveOrphan _ => true
  | .TransactionConfirmed _ => true
  | .ProcessOrphans _ => true
  | _ => false

/-- The three request envelopes, as opposed to an unknown message. -/
def Msg.isRequest : Msg → Bool
  | .unknown _ => false
  | _ => true

/-- The reply slot carried by a request. -/
def Msg.slot : Msg → Chan
  | .processBlockMsg _ _ reply => reply
  | .processTransactionMsg _ _ _ _ reply => reply
  | .isCurrentMsg isCurrentReply => isCurrentReply
  | .unknown _ => 0

/-- The events of the tip gate of a `processBlockMsg` that passes the gate. -/
def gateEvents (w : World) (block : Block) (flags : BehaviorFlags) : List Event :=
  if w.Has flags w.BFRPCAdd then [.CheckSubMainChainTip block.parents] else []

/-- The five calls the body of the connected-block loop makes for the
transaction `tx`, in program order. -/
def perTxEvents (tx : Tx) : List Event :=
  [.RemoveTransaction tx false, .RemoveDoubleSpends tx, .RemoveOrphan tx.hash,
    .TransactionConfirmed tx, .ProcessOrphans tx.hash]

/-- The blocks passed to the feed's `BlockAccepted`, in order. -/
def feedAcceptedCalls (evs : List Event) : List Block :=
  evs.filterMap fun e =>
    match e with
    | .ZmqBlockAccepted block => some block
    | _ => none

/-- The blocks passed to the feed's `BlockConnected`, in order. -/
def feedConnectedCalls (evs : List Event) : List Block :=
  evs.filterMap fun e =>
    match e with
    | .ZmqBlockConnected block => some block
    | _ => none

/-- The blocks passed to the fee estimator's `RegisterBlock`, in order. -/
def registerCalls (evs : List Event) : List Block :=
  evs.filterMap fun e =>
    match e with
    | .RegisterBlock block => some block
    | _ => none

/-- Events of the estimator step and the feed call that end the connected case. -/
def Event.isConnectedTail : Event → Bool
  | .RegisterBlock _ => true
  | .InitDefaultFeeEstimator => true
  | .ZmqBlockConnected _ => true
  | _ => false

/-- Calls on the mempool. -/
def Event.isMempoolCall : Event → Bool
  | .PruneExpiredTx => true
  | .MemPoolProcessTransaction _ _ _ _ => true
  | .RemoveTransaction _ _ => true
  | .RemoveDoubleSpends _ => true
  | .RemoveOrphan _ => true
  | .ProcessOrphans _ => true
  | _ => false

/-- Calls on the notifier `b.notify`. -/
def Event.isNotifierCall : Event → Bool
  | .RelayInventory _ => true
  | .TransactionConfirmed _ => true
  | .AnnounceNewTransactions _ => true
  | _ => false

/-- Calls on the fee estimator and on the tx manager's estimator reset. -/
def Event.isEstimatorCall : Event → Bool
  | .RegisterBlock _ => true
  | .Rollback _ => true
  | .InitDefaultFeeEstimator => true
  | _ => false

/-- Calls on the external event feed `b.zmqNotify`. -/
def Event.isFeedCall : Event → Bool
  | .ZmqBlockAccepted _ => true
  | .ZmqBlockConnected _ => true
  | .ZmqBlockDisconnected _ => true
  | _ => false

/-- The block hashes passed to the fee estimator's `Rollback`, in order. -/
def rollbackCalls (evs : List Event) : List Hash :=
  evs.filterMap fun e =>
    match e with
    | .Rollback blockHash => some blockHash
    | _ => none

/-- The blocks passed to the feed's `BlockDisconnected`, in order. -/
def feedDisconnectedCalls (evs : List Event) : List Block :=
  evs.filterMap fun e =>
    match e with
    | .ZmqBlockDisconnected block => some block
    | _ => none

/-- The batches passed to `AnnounceNewTransactions`, in order. -/
def announceCalls (evs : List Event) : List (List TxDesc) :=
  evs.filterMap fun e =>
    match e with
    | .AnnounceNewTransactions txds => some txds
    | _ => none

/-- The batch in the words of the specification: the descriptor lists that
`ProcessOrphans` returns for the transactions of the block after the coinbase,
concatenated in block order.  The call for a transaction `t` happens after the
events `done` of the transactions before it and the first four calls for `t`. -/
def promotedBatch (w : World) (h : List Event) : List Event → List Tx → List TxDesc
  | _, [] => []
  | done, t :: rest =>
      w.processOrphans (h ++ (done ++ [.RemoveTransaction t false, .RemoveDoubleSpends t,
        .RemoveOrphan t.hash, .TransactionConfirmed t])) t.hash
        ++ promotedBatch w h (done ++ perTxEvents t) rest

/-! ## Construction and reachable states -/

/-- Constructor `NewBlockManager`, as far as the fields of `BlockManager` go:
`disableCheckpoints` is `cfg.DisableCheckpoints`, `checkpoints` is
`params.ActiveNetParams.Params.Checkpoints`, `bestHash` and `bestMainHeight` are
`best.Hash` and `best.GraphState.GetMainHeight()` of the best snapshot. -/
def NewBlockManager (disableCheckpoints : Bool) (checkpoints : List Checkpoint)
    (bestHash : Hash) (bestMainHeight : Nat) : BlockManager :=
  let bm : BlockManager :=
    { DisableCheckpoints := disableCheckpoints
      Checkpoints := checkpoints
      headersFirstMode := false
      headerList := []
      startHeader := none
      nextCheckpoint := none
      lastProgressTime := 0 }
  if !disableCheckpoints then
    let bm1 := { bm with nextCheckpoint := findNextHeaderCheckpoint bm bestMainHeight }
    if bm1.nextCheckpoint.isSome then resetHeaderState bm1 bestHash bestMainHeight
    else bm1
  else bm

/-- Operations on a block manager: a call of `resetHeaderState`, a request
handled by the worker, a notification handled by the reactor. -/
inductive Op where
  | reset (newestHash : Hash) (newestHeight : Nat)
  | request (m : Msg)
  | notification (n : Notification)
  deriving DecidableEq, Repr

/-- One operation, on the block manager and the events so far.  Handling a
request does not touch the fields of the block manager. -/
def applyOp (w : World) (s : BlockManager × List Event) : Op → BlockManager × List Event
  | .reset newestHash newestHeight => (resetHeaderState s.1 newestHash newestHeight, s.2)
  | .request m => (s.1, s.2 ++ [.recv m] ++ (handleMsg w (s.2 ++ [.recv m]) m).events)
  | .notification n => ((handleNotifyMsg w s.1 s.2 n).b, s.2 ++ (handleNotifyMsg w s.1 s.2 n).events)

/-- A sequence of operations, from left to right. -/
def applyOps (w : World) (s : BlockManager × List Event) (ops : List Op) :
    BlockManager × List Event :=
  ops.foldl (applyOp w) s

/-! ## Sample collaborators -/

/-- A sample world.  A flag is set when its bit is set in the mask.  The tip check fails for an empty parent set.  The chain
store panics on the block with hash 0, reports the block with hash 1 as an
orphan, rejects the block with hash 2 and accepts every other block.  The
mempool accepts every transaction.  The peer server is current once some event
has happened.  The transaction with hash 7 promotes one orphan.  There is a fee
estimator, and it fails to register the block with hash 9. -/
def sampleWorld : World where
  Has := fun flags value => flags &&& value == value
  BFRPCAdd := 8
  BFP2PAdd := 4
  checkSubMainChainTip := fun _ parents =>
    if parents = [] then some (.msg "no valid tip") else none
  chainProcessBlock := fun _ block _ =>
    if block.hash = 0 then .panicked
    else if block.hash = 1 then .returned (true, none)
    else if block.hash = 2 then .returned (false, some (.msg "rejected"))
    else .returned (false, none)
  mempoolProcessTransaction := fun _ tx _ _ _ => ([⟨tx⟩], none)
  peerIsCurrent := fun h => !h.isEmpty
  processOrphans := fun _ txHash => if txHash = 7 then [⟨⟨70⟩⟩] else []
  hasFeeEstimator := fun _ => true
  registerBlock := fun _ block => if block.hash = 9 then some (.msg "invalid state") else none
  now := fun h => h.length

/-- Collaborators none of whose calls panics. -/
def noFaults : Faults where
  checkSubMainChainTip := fun _ _ => false
  pruneExpiredTx := fun _ => false
  mempoolProcessTransaction := fun _ _ _ _ _ => false
  peerIsCurrent := fun _ => false

/-- A block manager whose `txManager` is still nil: both mempool calls panic. -/
def nilTxManager : Faults where
  checkSubMainChainTip := fun _ _ => false
  pruneExpiredTx := fun _ => true
  mempoolProcessTransaction := fun _ _ _ _ _ => true
  peerIsCurrent := fun _ => false

/-- A sample block with the given hash and parents and the transactions with
hashes 100 (coinbase), 7 and 8. -/
def sampleBlock (hash : Hash) (parents : List Hash) : Block :=
  ⟨hash, 1000 + hash, parents, [⟨100⟩, ⟨7⟩, ⟨8⟩]⟩

/-- A sample block manager with checkpoints enabled, at the layers 1000, 5000
and 10000. -/
def sampleManager : BlockManager where
  DisableCheckpoints := false
  Checkpoints := [⟨1000, 11⟩, ⟨5000, 12⟩, ⟨10000, 13⟩]
  headersFirstMode := false
  headerList := []
  startHeader := none
  nextCheckpoint := none
  lastProgressTime := 0

/-- A sample block manager with checkpoints enabled whose list is in descending
order: the layers 10000, 5000 and 1000. -/
def descendingManager : BlockManager where
  DisableCheckpoints := false
  Checkpoints := [⟨10000, 13⟩, ⟨5000, 12⟩, ⟨1000, 11⟩]
  headersFirstMode := false
  headerList := []
  startHeader := none
  nextCheckpoint := none
  lastProgressTime := 0

end Blkmgr

/-! # Command-line flags of qx (`qx/txflag.go`) -/

namespace Qx

/-- Go strings, as the list of their characters. -/
abbrev GoString := List Char

/-- Standard library `strings.Split(s, sep)` for a separator `sep` of one
character: the substrings between the separators; a string without separator,
the empty string included, gives one field. -/
def Split (sep : Char) : GoString → List GoString
  | [] => [[]]
  | c :: rest =>
      if c = sep then [] :: Split sep rest
      else
        match Split sep rest with
        | [] => [[c]]
        | field :: fields => (c :: field) :: fields

/-- Value of a hexadecimal character, `reverseHexTable` of `encoding/hex`:
`0`-`9`, `a`-`f` and `A`-`F`, nothing for any other character. -/
def fromHexChar (c : Char) : Option Nat :=
  if 48 ≤ c.toNat ∧ c.toNat ≤ 57 then some (c.toNat - 48)
  else if 97 ≤ c.toNat ∧ c.toNat ≤ 102 then some (c.toNat - 97 + 10)
  else if 65 ≤ c.toNat ∧ c.toNat ≤ 70 then some (c.toNat - 65 + 10)
  else none

/-- Standard library `hex.DecodeString(s)`: two characters make one byte; an
invalid character or an odd length is an error (`none`). -/
def DecodeString : GoString → Option (List Nat)
  | [] => some []
  | [_] => none
  | p :: q :: rest =>
      match fromHexChar p, fromHexChar q with
      | some a, some b =>
          match DecodeString rest with
          | some data => some ((a * 16 + b) :: data)
          | none => none
      | _, _ => none

/-- Errors of `strconv.ParseUint`: `strconv.ErrSyntax` and `strconv.ErrRange`. -/
inductive NumError where
  | badText
  | outOfRange
  deriving DecidableEq, Repr

/-- The digit loop of `strconv.ParseUint(s, 10, bitSize)` with `maxVal` the
largest value of the bit size and `n` the `uint64` accumulator; the cutoff is
`maxUint64/10 + 1`. -/
def parseUintLoop (maxVal : Nat) : GoString → Nat → Except NumError Nat
  | [], n => .ok n
  | c :: rest, n =>
      if 48 ≤ c.toNat ∧ c.toNat ≤ 57 then
        if n ≥ 1844674407370955162 then .error .outOfRange
        else
          let n10 := (n * 10) % 18446744073709551616
          let n1 := (n10 + (c.toNat - 48)) % 18446744073709551616
          if n1 < n10 ∨ n1 > maxVal then .error .outOfRange
          else parseUintLoop maxVal rest n1
      else .error .badText

/-- Standard library `strconv.ParseUint(s, 10, 32)`. -/
def ParseUint32 (s : GoString) : Except NumError Nat :=
  if s = [] then .error .badText else parseUintLoop 4294967295 s 0

/-- Method `TxVersionFlag.String`: `fmt.Sprintf("%d", ver)`. -/
def TxVersionFlag.String (ver : Nat) : GoString :=
  Nat.toDigits 10 ver

/-- Method `TxVersionFlag.Set(s)` on the flag value `ver`: the flag afterwards
and the returned error. -/
def TxVersionFlag.Set (ver : Nat) (s : GoString) : Nat × Option NumError :=
  match ParseUint32 s with
  | .error err => (ver, some err)
  | .ok v => (v % 4294967296, none)

/-- Method `TxLockTimeFlag.String`: `fmt.Sprintf("%d", lt)`. -/
def TxLockTimeFlag.String (lt : Nat) : GoString :=
  Nat.toDigits 10 lt

/-- Method `TxLockTimeFlag.Set(s)` on the flag value `lt`. -/
def TxLockTimeFlag.Set (lt : Nat) (s : GoString) : Nat × Option NumError :=
  match ParseUint32 s with
  | .error err => (lt, some err)
  | .ok v => (v % 4294967296, none)

/-- Struct `txInput`. -/
structure txInput where
  txhash : List Nat
  index : Nat
  sequence : Nat
  txtype : GoString
  address : GoString
  deriving DecidableEq, Repr

/-- Struct `TxInputsFlag`. -/
structure TxInputsFlag where
  inputs : List txInput
  deriving DecidableEq, Repr

/-- Errors returned by `TxInputsFlag.Set`. -/
inductive SetError where
  /-- `fmt.Errorf("error to parse tx input : %s", s)` -/
  | parseInput
  /-- the error of `hex.DecodeString` -/
  | hexText
  /-- `fmt.Errorf("tx hash should be 32 bytes")` -/
  | hashLength
  /-- the error of `strconv.ParseUint` -/
  | number (err : NumError)
  deriving DecidableEq, Repr

/-- The sequence of `TxInputsFlag.Set`: `math.MaxUint32`, or the third field
when there is one. -/
def parseSequence (input : List GoString) : Except NumError Nat :=
  if input.length ≥ 3 then
    match ParseUint32 (input.getD 2 []) with
    | .error err => .error err
    | .ok v => .ok (v % 4294967296)
  else .ok 4294967295

/-- Method `TxInputsFlag.Set(s)` on the flag value `v`: the flag afterwards and
the returned error.  `txTypeRegular` is `types.TxTypeRegular.String()`. -/
def TxInputsFlag.Set (txTypeRegular : GoString) (v : TxInputsFlag) (s : GoString) :
    TxInputsFlag × Option SetError :=
  let input := Split ':' s
  if input.length < 2 then (v, some .parseInput)
  else
    match DecodeString (input.getD 0 []) with
    | none => (v, some .hexText)
    | some data =>
        if data.length ≠ 32 then (v, some .hashLength)
        else
          match ParseUint32 (input.getD 1 []) with
          | .error err => (v, some (.number err))
          | .ok index =>
              match parseSequence input with
              | .error err => (v, some (.number err))
              | .ok seq =>
                  let txtype := if input.length ≥ 4 then input.getD 3 [] else txTypeRegular
                  let addr := if input.length = 5 then input.getD 4 [] else []
                  (⟨v.inputs ++ [⟨data, index % 4294967296, seq % 4294967296, txtype, addr⟩]⟩,
                    none)

/-- Hexadecimal characters. -/
def isHexChar (c : Char) : Bool :=
  (48 ≤ c.toNat && c.toNat ≤ 57) || (97 ≤ c.toNat && c.toNat ≤ 102)
    || (65 ≤ c.toNat && c.toNat ≤ 70)

/-- Decimal digits. -/
def isDecChar (c : Char) : Bool :=
  48 ≤ c.toNat && c.toNat ≤ 57

/-- A field that is hexadecimal text decoding to exactly 32 bytes: 64
hexadecimal characters. -/
def isHex32 (field : GoString) : Prop :=
  field.length = 64 ∧ ∀ c ∈ field, isHexChar c = true

/-- The number that a string of decimal digits denotes. -/
def decimalValue (field : GoString) : Nat :=
  field.foldl (fun n c => n * 10 + (c.toNat - 48)) 0

/-- A field that is a decimal unsigned 32-bit integer: one or more decimal
digits denoting a number below `2^32`. -/
def isDecimalUint32 (field : GoString) : Prop :=
  field ≠ [] ∧ (∀ c ∈ field, isDecChar c = true) ∧ decimalValue field < 4294967296

/-- A sample input: 64 hexadecimal characters, index 1, sequence 2. -/
def sampleInputText : GoString :=
  List.replicate 64 'a' ++ ":1:2".toList

end Qx

/-! # MeerEVM fork rules (`consensus/forks/meerevmfork.go`) -/

namespace Forks

/-- Constant `MeerEVMForkMainHeight`. -/
def MeerEVMForkMainHeight : Int := 959000

/-- Constant `MeerEVMValidMainHeight`. -/
def MeerEVMValidMainHeight : Int := 959000

/-- Outpoint `types.TxOutPoint`. -/
structure TxOutPoint where
  Hash : Nat
  OutIndex : Nat
  deriving DecidableEq, Repr

/-- Input `types.TxInput`. -/
structure TxInput where
  PreviousOut : TxOutPoint
  deriving DecidableEq, Repr

/-- Output `types.TxOutput`. -/
structure TxOutput where
  PkScript : List Nat
  deriving DecidableEq, Repr

/-- Transaction `types.Transaction`: `hash` is `CachedTxHash()`. -/
structure Transaction where
  hash : Nat
  TxOut : List TxOutput
  deriving DecidableEq, Repr

/-- A parsed opcode of `txscript`: `value` is `GetOpcode().GetValue()` and
`int64` is `txscript.GetInt64FromOpcode`. -/
structure ParsedOpcode where
  value : Nat
  int64 : Int
  deriving DecidableEq, Repr

/-- What the fork rules read from other packages: the active network parameters
and the functions of `protocol`, `types` and `txscript`. -/
structure Env where
  /-- `params.ActiveNetParams.Net` -/
  Net : Nat
  /-- constant `protocol.MainNet` -/
  MainNet : Nat
  /-- `params.ActiveNetParams.GenesisBlock.Transactions` -/
  GenesisTransactions : List Transaction
  /-- `params.ActiveNetParams.LedgerParams.MaxLockHeight` -/
  MaxLockHeight : Int
  /-- constant `txscript.OP_CHECKLOCKTIMEVERIFY` -/
  OP_CHECKLOCKTIMEVERIFY : Nat
  /-- `txscript.ParseScript(pkScript)`: the opcodes, or an error (`none`) -/
  ParseScript : List Nat → Option (List ParsedOpcode)
  /-- `types.IsCrossChainExportTx(tx)` -/
  IsCrossChainExportTx : Transaction → Bool

/-- The loop `for _, tx := range gblock.Transactions` of
`IsMaxLockUTXOInGenesis`.  An index out of range panics. -/
def genesisLoop (env : Env) (op : TxOutPoint) : List Transaction → Blkmgr.Outcome Bool
  | [] => .returned false
  | tx :: rest =>
      if tx.hash = op.Hash then
        if op.OutIndex ≥ tx.TxOut.length % 4294967296 then .returned false
        else
          match tx.TxOut[op.OutIndex]? with
          | none => .panicked
          | some out =>
              match env.ParseScript out.PkScript with
              | none => .returned false
              | some ops =>
                  match ops[1]? with
                  | none => .panicked
                  | some op1 =>
                      if op1.value ≠ env.OP_CHECKLOCKTIMEVERIFY then .returned false
                      else
                        match ops[0]? with
                        | none => .panicked
                        | some op0 =>
                            if op0.int64 = env.MaxLockHeight then .returned true
                            else .returned false
      else genesisLoop env op rest

/-- Function `IsMaxLockUTXOInGenesis(op)`. -/
def IsMaxLockUTXOInGenesis (env : Env) (op : TxOutPoint) : Blkmgr.Outcome Bool :=
  genesisLoop env op env.GenesisTransactions

/-- Function `IsMeerEVMValid(tx, ip, mainHeight)`. -/
def IsMeerEVMValid (env : Env) (tx : Transaction) (ip : TxInput) (mainHeight : Int) :
    Blkmgr.Outcome Bool :=
  if env.Net ≠ env.MainNet then .returned false
  else if mainHeight < MeerEVMForkMainHeight ∨ mainHeight < MeerEVMValidMainHeight then
    .returned false
  else if !env.IsCrossChainExportTx tx then .returned false
  else IsMaxLockUTXOInGenesis env ip.PreviousOut

/-- Function `IsMeerEVMForkHeight(mainHeight)`. -/
def IsMeerEVMForkHeight (env : Env) (mainHeight : Int) : Bool :=
  if env.Net ≠ env.MainNet then false
  else decide (mainHeight ≥ MeerEVMForkMainHeight)

/-- Function `IsMeerEVMValidHeight(mainHeight)`. -/
def IsMeerEVMValidHeight (env : Env) (mainHeight : Int) : Bool :=
  if env.Net ≠ env.MainNet then false
  else decide (mainHeight ≥ MeerEVMValidMainHeight)

/-- A sample environment on the network `net`: main net is 1, the genesis block
holds one transaction with hash 5 whose output 0 is locked to the maximal lock
height 100, and the transaction with hash 9 is a cross-chain export. -/
def sampleEnv (net : Nat) : Env where
  Net := net
  MainNet := 1
  GenesisTransactions := [⟨5, [⟨[1, 2]⟩]⟩]
  MaxLockHeight := 100
  OP_CHECKLOCKTIMEVERIFY := 177
  ParseScript := fun pkScript =>
    if pkScript = [1, 2] then some [⟨0, 100⟩, ⟨177, 0⟩] else none
  IsCrossChainExportTx := fun tx => tx.hash == 9

end Forks

namespace Blkmgr

/-! ## Theorems: worker loop -/

theorem sends_append (a c : List Event) : sends (a ++ c) = sends a ++ sends c := by
  simp [sends, List.filterMap_append]

theorem chainCalls_append (a c : List Event) :
    chainCalls (a ++ c) = chainCalls a ++ chainCalls c := by
  simp [chainCalls, List.filterMap_append]

/-- C1: an RPC-submitted block (flags contain `BFRPCAdd`) whose parents fail
`CheckSubMainChainTip` never reaches `chain.ProcessBlock` nor `PruneExpiredTx`;
the single reply has `IsTipsExpired = true`, `IsOrphan = false` and an error that
is not nil, and the worker goes on. -/
theorem tip_gate_stops_request (w : World) (h : List Event) (block : Block)
    (flags : BehaviorFlags) (reply : Chan) (err : GoError)
    (hrpc : w.Has flags w.BFRPCAdd = true)
    (htip : w.checkSubMainChainTip h block.parents = some err) :
    chainCalls (handleMsg w h (.processBlockMsg block flags reply)).events = [] ∧
    Event.PruneExpiredTx ∉ (handleMsg w h (.processBlockMsg block flags reply)).events ∧
    (∃ r : ProcessBlockResponse,
      sends (handleMsg w h (.processBlockMsg block flags reply)).events
        = [(reply, .block r)] ∧
      r.IsTipsExpired = true ∧ r.IsOrphan = false ∧ r.Err ≠ none) ∧
    (handleMsg w h (.processBlockMsg block flags reply)).faulted = false := by
  simp [handleMsg, hrpc, htip, chainCalls, sends]

/-- Witness of C1 on the sample world: an RPC block without parents. -/
theorem tip_gate_stops_request_witness :
    chainCalls (handleMsg sampleWorld [] (.processBlockMsg (sampleBlock 3 []) 8 1)).events = [] ∧
    Event.PruneExpiredTx ∉
      (handleMsg sampleWorld [] (.processBlockMsg (sampleBlock 3 []) 8 1)).events ∧
    (∃ r : ProcessBlockResponse,
      sends (handleMsg sampleWorld [] (.processBlockMsg (sampleBlock 3 []) 8 1)).events
        = [(1, .block r)] ∧
      r.IsTipsExpired = true ∧ r.IsOrphan = false ∧ r.Err ≠ none) ∧
    (handleMsg sampleWorld [] (.processBlockMsg (sampleBlock 3 []) 8 1)).faulted = false :=
  tip_gate_stops_request sampleWorld [] (sampleBlock 3 []) 8 1 (.msg "no valid tip")
    (by decide) (by decide)

theorem processBlockCall_returned (w : World) (h pre : List Event) (block : Block)
    (flags : BehaviorFlags) (reply : Chan) (o : Bool) (e : Option GoError)
    (hret : w.chainProcessBlock (h ++ pre) block flags = .returned (o, e)) :
    processBlockCall w h pre block flags reply =
      ⟨pre ++ [.ChainProcessBlock block flags]
        ++ (if e = none ∧ o = false then [.PruneExpiredTx] else [])
        ++ [.send reply (.block ⟨o, e, false⟩)], false⟩ := by
  unfold processBlockCall
  rw [hret]
  cases e <;> cases o <;> simp

theorem processBlockCall_panicked (w : World) (h pre : List Event) (block : Block)
    (flags : BehaviorFlags) (reply : Chan)
    (hp : w.chainProcessBlock (h ++ pre) block flags = .panicked) :
    processBlockCall w h pre block flags reply =
      ⟨pre ++ [.ChainProcessBlock block flags], true⟩ := by
  unfold processBlockCall
  rw [hp]

/-- A request that passes the tip gate goes on to the call of `chain.ProcessBlock`
right after the events of the gate. -/
theorem handleMsg_gate_passed (w : World) (h : List Event) (block : Block)
    (flags : BehaviorFlags) (reply : Chan)
    (hgate : w.Has flags w.BFRPCAdd = false ∨ w.checkSubMainChainTip h block.parents = none) :
    handleMsg w h (.processBlockMsg block flags reply) =
      processBlockCall w h (gateEvents w block flags) block flags reply := by
  unfold handleMsg gateEvents
  rcases hgate with hg | hg
  · simp [hg]
  · by_cases hf : w.Has flags w.BFRPCAdd = true
    · simp [hf, hg]
    · simp [hf]

/-- Handling one request whose `chain.ProcessBlock` call, if any, returns: the
pass does not fault and sends exactly one value, on the slot of the request. -/
theorem handleMsg_one_reply (w : World) (h : List Event) (m : Msg)
    (hreq : m.isRequest = true)
    (hret : ∀ h1 block flags reply, m = .processBlockMsg block flags reply →
      w.chainProcessBlock h1 block flags ≠ .panicked) :
    (handleMsg w h m).faulted = false ∧
    ∃ v, (handleMsg w h m).events.filter Event.isQueue = [.send m.slot v] := by
  cases m with
  | processBlockMsg block flags reply =>
      by_cases hgate :
          w.Has flags w.BFRPCAdd = false ∨ w.checkSubMainChainTip h block.parents = none
      · rw [handleMsg_gate_passed w h block flags reply hgate]
        cases hc : w.chainProcessBlock (h ++ gateEvents w block flags) block flags with
        | panicked => exact absurd hc (hret _ block flags reply rfl)
        | returned p =>
            obtain ⟨o, e⟩ := p
            rw [processBlockCall_returned w h _ block flags reply o e hc]
            refine ⟨rfl, .block ⟨o, e, false⟩, ?_⟩
            simp only [gateEvents, List.filter_append]
            split <;> split <;> simp [Event.isQueue, List.filter, Msg.slot]
      · simp only [not_or, Bool.not_eq_false] at hgate
        obtain ⟨hf, hg⟩ := hgate
        obtain ⟨err, herr⟩ := Option.ne_none_iff_exists'.mp hg
        simp [handleMsg, hf, herr, Event.isQueue, List.filter, Msg.slot]
  | processTransactionMsg tx a r f reply =>
      simp [handleMsg, Event.isQueue, List.filter, Msg.slot]
  | isCurrentMsg reply =>
      simp [handleMsg, Event.isQueue, List.filter, Msg.slot]
  | unknown tag => simp [Msg.isRequest] at hreq

/-- C2, as stated, fails: on the sample world the chain store panics on the block
with hash 0, and the pass that handles the request for that block ends without
any value sent on its reply slot. -/
theorem request_unanswered_on_validator_panic :
    (Msg.processBlockMsg (sampleBlock 0 [5]) 0 1).isRequest = true ∧
    (sends (handleMsg sampleWorld [.recv (.processBlockMsg (sampleBlock 0 [5]) 0 1)]
      (.processBlockMsg (sampleBlock 0 [5]) 0 1)).events).length = 0 ∧
    (handleMsg sampleWorld [.recv (.processBlockMsg (sampleBlock 0 [5]) 0 1)]
      (.processBlockMsg (sampleBlock 0 [5]) 0 1)).faulted = true := by
  decide

/-- When every collaborator call returns, the run takes and answers every
request: its queue events are `recv m, send m.slot v` for each request `m` in
order. -/
theorem blockHandler_answers_requests (w : World) (ms : List Msg) (h : List Event)
    (hreq : ∀ m ∈ ms, m.isRequest = true)
    (hret : ∀ h1 block flags reply, Msg.processBlockMsg block flags reply ∈ ms →
      w.chainProcessBlock h1 block flags ≠ .panicked) :
    ∃ (new : List Event) (vs : List ReplyVal),
      blockHandler w h (ms.map Select.msg) = (h ++ new, Exit.waiting) ∧
      vs.length = ms.length ∧
      new.filter Event.isQueue =
        (ms.zip vs).flatMap (fun p => [Event.recv p.1, Event.send p.1.slot p.2]) := by
  induction ms generalizing h with
  | nil => exact ⟨[], [], by simp [blockHandler], rfl, rfl⟩
  | cons m rest ih =>
      obtain ⟨hf, v, hv⟩ := handleMsg_one_reply w (h ++ [.recv m]) m
        (hreq m (List.mem_cons_self m rest))
        (fun h1 block flags reply hm => hret h1 block flags reply
          (hm ▸ List.mem_cons_self m rest))
      obtain ⟨new, vs, hrun, hlen, hq⟩ :=
        ih (h ++ [.recv m] ++ (handleMsg w (h ++ [.recv m]) m).events)
          (fun m1 hm1 => hreq m1 (List.mem_cons_of_mem m hm1))
          (fun h1 block flags reply hm => hret h1 block flags reply
            (List.mem_cons_of_mem m hm))
      refine ⟨[.recv m] ++ (handleMsg w (h ++ [.recv m]) m).events ++ new, v :: vs, ?_, ?_, ?_⟩
      · have hstep : blockHandler w h (Select.msg m :: rest.map Select.msg) =
            blockHandler w (h ++ [.recv m] ++ (handleMsg w (h ++ [.recv m]) m).events)
              (rest.map Select.msg) := by
          simp [blockHandler, hf]
        rw [List.map_cons, hstep, hrun]
        simp
      · simp [hlen]
      · simp only [List.filter_append, hv, hq]
        simp [Event.isQueue, List.filter]

theorem processBlockCallF_eq (w : World) (f : Faults) (hq : f.quiet) (h pre : List Event)
    (block : Block) (flags : BehaviorFlags) (reply : Chan) :
    processBlockCallF w f h pre block flags reply
      = processBlockCall w h pre block flags reply := by
  unfold processBlockCallF processBlockCall
  cases hc : w.chainProcessBlock (h ++ pre) block flags with
  | panicked => rfl
  | returned p =>
      obtain ⟨o, e⟩ := p
      cases e <;> cases o <;> simp [hq.2.1]

/-- With collaborators none of whose calls panics, the pass is the one of
`handleMsg`. -/
theorem handleMsgF_eq (w : World) (f : Faults) (hq : f.quiet) (h : List Event) (m : Msg) :
    handleMsgF w f h m = handleMsg w h m := by
  cases m with
  | processBlockMsg block flags reply =>
      simp only [handleMsgF, handleMsg, processBlockCallF_eq w f hq, hq.1]
      simp
  | processTransactionMsg tx a r fl reply =>
      simp [handleMsgF, handleMsg, hq.2.2.1]
  | isCurrentMsg reply =>
      simp [handleMsgF, handleMsg, hq.2.2.2]
  | unknown tag => rfl

theorem blockHandlerF_eq (w : World) (f : Faults) (hq : f.quiet) (sel : List Select) :
    ∀ h : List Event, blockHandlerF w f h sel = blockHandler w h sel := by
  induction sel with
  | nil => intro h; rfl
  | cons x rest ih =>
      intro h
      cases x with
      | quit => rfl
      | msg m =>
          simp only [blockHandlerF, blockHandler, handleMsgF_eq w f hq, ih]

theorem processBlockCallF_reply (w : World) (f : Faults) (h pre : List Event)
    (block : Block) (flags : BehaviorFlags) (reply : Chan)
    (hpre : pre.filter Event.isQueue = [])
    (hnf : (processBlockCallF w f h pre block flags reply).faulted = false) :
    ∃ v, (processBlockCallF w f h pre block flags reply).events.filter Event.isQueue
      = [.send reply v] := by
  unfold processBlockCallF at hnf ⊢
  cases hc : w.chainProcessBlock (h ++ pre) block flags with
  | panicked => simp [hc] at hnf
  | returned p =>
      obtain ⟨o, e⟩ := p
      cases e with
      | some err =>
          exact ⟨.block ⟨o, some err, false⟩, by
            simp [List.filter_append, hpre, Event.isQueue, List.filter]⟩
      | none =>
          cases o with
          | true =>
              exact ⟨.block ⟨true, none, false⟩, by
                simp [List.filter_append, hpre, Event.isQueue, List.filter]⟩
          | false =>
              cases hp : f.pruneExpiredTx (h ++ (pre ++ [.ChainProcessBlock block flags])) with
              | true => simp [hc, hp] at hnf
              | false =>
                  exact ⟨.block ⟨false, none, false⟩, by
                    simp [hp, List.filter_append, hpre, Event.isQueue, List.filter]⟩

/-- A pass that handles a request and ends without panic has sent exactly one
value, on the slot of the request. -/
theorem handleMsgF_reply (w : World) (f : Faults) (h : List Event) (m : Msg)
    (hreq : m.isRequest = true) (hnf : (handleMsgF w f h m).faulted = false) :
    ∃ v, (handleMsgF w f h m).events.filter Event.isQueue = [.send m.slot v] := by
  cases m with
  | processBlockMsg block flags reply =>
      simp only [handleMsgF] at hnf ⊢
      cases hrpc : w.Has flags w.BFRPCAdd with
      | false =>
          simp only [hrpc, Bool.false_eq_true, if_false] at hnf ⊢
          exact processBlockCallF_reply w f h [] block flags reply rfl hnf
      | true =>
          simp only [hrpc, if_true] at hnf ⊢
          cases hft : f.checkSubMainChainTip h block.parents with
          | true => simp [hft] at hnf
          | false =>
              simp only [hft, Bool.false_eq_true, if_false] at hnf ⊢
              cases htip : w.checkSubMainChainTip h block.parents with
              | some err =>
                  exact ⟨.block ⟨false, some (.tipsExpired block.hash err), true⟩, by
                    simp [Event.isQueue, List.filter, Msg.slot]⟩
              | none =>
                  simp only [htip] at hnf ⊢
                  exact processBlockCallF_reply w f h _ block flags reply rfl hnf
  | processTransactionMsg tx a r fl reply =>
      simp only [handleMsgF] at hnf ⊢
      cases hft : f.mempoolProcessTransaction h tx a r fl with
      | true => simp [hft] at hnf
      | false =>
          exact ⟨.tx ⟨(w.mempoolProcessTransaction h tx a r fl).1,
            (w.mempoolProcessTransaction h tx a r fl).2⟩, by
            simp [Event.isQueue, List.filter, Msg.slot]⟩
  | isCurrentMsg reply =>
      simp only [handleMsgF] at hnf ⊢
      cases hft : f.peerIsCurrent h with
      | true => simp [hft] at hnf
      | false =>
          exact ⟨.current (w.peerIsCurrent h), by
            simp [Event.isQueue, List.filter, Msg.slot]⟩
  | unknown tag => simp [Msg.isRequest] at hreq

/-- A run that does not end in a crash has answered every request exactly
once. -/
theorem blockHandlerF_answers (w : World) (f : Faults) (ms : List Msg) :
    ∀ h : List Event, (∀ m ∈ ms, m.isRequest = true) →
      (blockHandlerF w f h (ms.map Select.msg)).2 ≠ Exit.crashed →
      ∃ (new : List Event) (vs : List ReplyVal),
        blockHandlerF w f h (ms.map Select.msg) = (h ++ new, Exit.waiting) ∧
        vs.length = ms.length ∧
        new.filter Event.isQueue =
          (ms.zip vs).flatMap (fun p => [Event.recv p.1, Event.send p.1.slot p.2]) := by
  induction ms with
  | nil => intro h _ _; exact ⟨[], [], by simp [blockHandlerF], rfl, rfl⟩
  | cons m rest ih =>
      intro h hreq hnc
      cases hf : (handleMsgF w f (h ++ [.recv m]) m).faulted with
      | true =>
          exfalso
          apply hnc
          simp [blockHandlerF, hf]
      | false =>
          have hstep : blockHandlerF w f h (Select.msg m :: rest.map Select.msg) =
              blockHandlerF w f (h ++ [.recv m] ++ (handleMsgF w f (h ++ [.recv m]) m).events)
                (rest.map Select.msg) := by
            simp [blockHandlerF, hf]
          obtain ⟨v, hv⟩ := handleMsgF_reply w f (h ++ [.recv m]) m
            (hreq m (List.mem_cons_self m rest)) hf
          rw [List.map_cons, hstep] at hnc
          obtain ⟨new, vs, hrun, hlen, hqe⟩ :=
            ih (h ++ [.recv m] ++ (handleMsgF w f (h ++ [.recv m]) m).events)
              (fun m1 hm1 => hreq m1 (List.mem_cons_of_mem m hm1)) hnc
          refine ⟨[.recv m] ++ (handleMsgF w f (h ++ [.recv m]) m).events ++ new, v :: vs,
            ?_, ?_, ?_⟩
          · rw [List.map_cons, hstep, hrun]
            simp
          · simp [hlen]
          · simp only [List.filter_append, hv, hqe]
            simp [Event.isQueue, List.filter]

/-- An example with a nil `txManager`: the call through it panics at line 387 and
the `processTransactionMsg` is left without a reply. -/
theorem request_unanswered_on_nil_txManager :
    blockHandlerF sampleWorld nilTxManager []
        [.msg (.processTransactionMsg ⟨7⟩ true false true 2), .msg (.isCurrentMsg 3)]
      = ([.recv (.processTransactionMsg ⟨7⟩ true false true 2),
          .MemPoolProcessTransaction ⟨7⟩ true false true], Exit.crashed) := by
  decide

/-- C2, amended: on every execution path on which every call the worker makes on
a collaborator returns, the worker delivers exactly one value to the reply slot
of each request it takes, never zero and never two, before it takes the next
one.  For requests `ms`: when no collaborator call panics the run does not end in
a crash; and a run that does not end in a crash, which is a run on which every
call made has returned, has the queue events `recv m, send m.slot v` for each
request `m` in order and then waits for the next message. -/
theorem exactly_one_reply_per_request (w : World) (f : Faults) (ms : List Msg)
    (h : List Event) (hreq : ∀ m ∈ ms, m.isRequest = true) :
    ((f.quiet ∧ ∀ h1 block flags reply, Msg.processBlockMsg block flags reply ∈ ms →
        w.chainProcessBlock h1 block flags ≠ .panicked) →
      (blockHandlerF w f h (ms.map Select.msg)).2 ≠ Exit.crashed) ∧
    ((blockHandlerF w f h (ms.map Select.msg)).2 ≠ Exit.crashed →
      ∃ (new : List Event) (vs : List ReplyVal),
        blockHandlerF w f h (ms.map Select.msg) = (h ++ new, Exit.waiting) ∧
        vs.length = ms.length ∧
        new.filter Event.isQueue =
          (ms.zip vs).flatMap (fun p => [Event.recv p.1, Event.send p.1.slot p.2])) := by
  constructor
  · rintro ⟨hq, hret⟩
    obtain ⟨new, vs, hrun, -, -⟩ := blockHandler_answers_requests w ms h hreq hret
    rw [blockHandlerF_eq w f hq, hrun]
    simp
  · exact blockHandlerF_answers w f ms h hreq

/-- Witness of the amended C2 on the sample world.  With collaborators that
never panic, an accepted block, a transaction, a current query and a rejected
block are all served; with a nil `txManager`, the run over an orphan block, a
current query and a rejected block makes no mempool call, does not crash, and
answers each of the three requests once. -/
theorem exactly_one_reply_per_request_witness :
    (blockHandlerF sampleWorld noFaults []
      ([.processBlockMsg (sampleBlock 3 [5]) 8 1, .processTransactionMsg ⟨7⟩ true false true 2,
        .isCurrentMsg 3, .processBlockMsg (sampleBlock 2 []) 0 4].map Select.msg)).2
      ≠ Exit.crashed ∧
    ∃ (new : List Event) (vs : List ReplyVal),
      blockHandlerF sampleWorld nilTxManager []
        ([.processBlockMsg (sampleBlock 1 [5]) 8 1, .isCurrentMsg 3,
          .processBlockMsg (sampleBlock 2 []) 0 4].map Select.msg)
        = ([] ++ new, Exit.waiting) ∧
      vs.length = [Msg.processBlockMsg (sampleBlock 1 [5]) 8 1, .isCurrentMsg 3,
          .processBlockMsg (sampleBlock 2 []) 0 4].length ∧
      new.filter Event.isQueue =
        ([Msg.processBlockMsg (sampleBlock 1 [5]) 8 1, .isCurrentMsg 3,
          .processBlockMsg (sampleBlock 2 []) 0 4].zip vs).flatMap
          (fun p => [Event.recv p.1, Event.send p.1.slot p.2]) :=
  ⟨(exactly_one_reply_per_request sampleWorld noFaults
      [.processBlockMsg (sampleBlock 3 [5]) 8 1, .processTransactionMsg ⟨7⟩ true false true 2,
        .isCurrentMsg 3, .processBlockMsg (sampleBlock 2 []) 0 4] [] (by decide)).1
      ⟨⟨fun _ _ => rfl, fun _ => rfl, fun _ _ _ _ _ => rfl, fun _ => rfl⟩, by
        intro h1 block flags reply hm
        simp only [List.mem_cons, Msg.processBlockMsg.injEq, reduceCtorEq, List.mem_nil_iff,
          or_false, false_or] at hm
        rcases hm with ⟨rfl, -, -⟩ | ⟨rfl, -, -⟩ <;> simp [sampleWorld, sampleBlock]⟩,
    (exactly_one_reply_per_request sampleWorld nilTxManager
      [.processBlockMsg (sampleBlock 1 [5]) 8 1, .isCurrentMsg 3,
        .processBlockMsg (sampleBlock 2 []) 0 4] [] (by decide)).2 (by decide)⟩

theorem chainCalls_gateEvents (w : World) (block : Block) (flags : BehaviorFlags) :
    chainCalls (gateEvents w block flags) = [] := by
  unfold gateEvents chainCalls
  split <;> simp

theorem sends_gateEvents (w : World) (block : Block) (flags : BehaviorFlags) :
    sends (gateEvents w block flags) = [] := by
  unfold gateEvents sends
  split <;> simp

theorem count_prune_gateEvents (w : World) (block : Block) (flags : BehaviorFlags) :
    (gateEvents w block flags).count Event.PruneExpiredTx = 0 := by
  unfold gateEvents
  split <;> simp

/-- C3: a `processBlockMsg` that the tip gate lets through (no `BFRPCAdd`, or the
tip check succeeds) makes the worker call `chain.ProcessBlock` exactly once, with
the block and flags of the request, and the single reply is
`{IsOrphan: o, Err: e, IsTipsExpired: false}` for the `(o, e)` the chain store
returned; without `BFRPCAdd` the tip check is not called. -/
theorem gate_passed_calls_validator_once (w : World) (h : List Event) (block : Block)
    (flags : BehaviorFlags) (reply : Chan) (o : Bool) (e : Option GoError)
    (hgate : w.Has flags w.BFRPCAdd = false ∨ w.checkSubMainChainTip h block.parents = none)
    (hret : w.chainProcessBlock (h ++ gateEvents w block flags) block flags
      = .returned (o, e)) :
    chainCalls (handleMsg w h (.processBlockMsg block flags reply)).events
      = [(block, flags)] ∧
    sends (handleMsg w h (.processBlockMsg block flags reply)).events
      = [(reply, .block ⟨o, e, false⟩)] ∧
    (handleMsg w h (.processBlockMsg block flags reply)).faulted = false ∧
    (w.Has flags w.BFRPCAdd = false →
      ∀ parents, Event.CheckSubMainChainTip parents ∉
        (handleMsg w h (.processBlockMsg block flags reply)).events) := by
  rw [handleMsg_gate_passed w h block flags reply hgate,
    processBlockCall_returned w h _ block flags reply o e hret]
  refine ⟨?_, ?_, rfl, ?_⟩
  · simp only [chainCalls_append, chainCalls_gateEvents]
    split <;> simp [chainCalls]
  · simp only [sends_append, sends_gateEvents]
    split <;> simp [sends]
  · intro hf parents
    have hg : gateEvents w block flags = [] := by simp [gateEvents, hf]
    rw [hg]
    split <;> simp

/-- Witness of C3 on the sample world: an RPC block with a valid parent set that
the chain store reports as an orphan. -/
theorem gate_passed_calls_validator_once_witness :
    chainCalls (handleMsg sampleWorld [] (.processBlockMsg (sampleBlock 1 [5]) 8 1)).events
      = [(sampleBlock 1 [5], 8)] ∧
    sends (handleMsg sampleWorld [] (.processBlockMsg (sampleBlock 1 [5]) 8 1)).events
      = [(1, .block ⟨true, none, false⟩)] ∧
    (handleMsg sampleWorld [] (.processBlockMsg (sampleBlock 1 [5]) 8 1)).faulted = false ∧
    (sampleWorld.Has 8 sampleWorld.BFRPCAdd = false →
      ∀ parents, Event.CheckSubMainChainTip parents ∉
        (handleMsg sampleWorld [] (.processBlockMsg (sampleBlock 1 [5]) 8 1)).events) :=
  gate_passed_calls_validator_once sampleWorld [] (sampleBlock 1 [5]) 8 1 true none
    (Or.inr (by decide)) (by decide)

/-- C4: while handling a `processBlockMsg` whose `chain.ProcessBlock` call
returned `(o, e)`, the worker calls `PruneExpiredTx` exactly once when `e` is nil
and `o` is false, and not at all when the block is an orphan or `e` is an
error. -/
theorem prune_iff_accepted_not_orphan (w : World) (h : List Event) (block : Block)
    (flags : BehaviorFlags) (reply : Chan) (o : Bool) (e : Option GoError)
    (hgate : w.Has flags w.BFRPCAdd = false ∨ w.checkSubMainChainTip h block.parents = none)
    (hret : w.chainProcessBlock (h ++ gateEvents w block flags) block flags
      = .returned (o, e)) :
    ((handleMsg w h (.processBlockMsg block flags reply)).events.count Event.PruneExpiredTx = 1
      ↔ (e = none ∧ o = false)) ∧
    ((o = true ∨ e ≠ none) →
      (handleMsg w h (.processBlockMsg block flags reply)).events.count Event.PruneExpiredTx
        = 0) := by
  rw [handleMsg_gate_passed w h block flags reply hgate,
    processBlockCall_returned w h _ block flags reply o e hret]
  simp only [List.count_append, count_prune_gateEvents]
  cases e <;> cases o <;> simp

/-- Witness of C4 on the sample world: an accepted block is followed by one
`PruneExpiredTx`. -/
theorem prune_iff_accepted_not_orphan_witness :
    ((handleMsg sampleWorld [] (.processBlockMsg (sampleBlock 3 [5]) 8 1)).events.count
        Event.PruneExpiredTx = 1 ↔ ((none : Option GoError) = none ∧ false = false)) ∧
    ((false = true ∨ (none : Option GoError) ≠ none) →
      (handleMsg sampleWorld [] (.processBlockMsg (sampleBlock 3 [5]) 8 1)).events.count
        Event.PruneExpiredTx = 0) :=
  prune_iff_accepted_not_orphan sampleWorld [] (sampleBlock 3 [5]) 8 1 false none
    (Or.inr (by decide)) (by decide)

/-- C5, as stated, fails: on the sample world the chain store panics on the block
with hash 0; the run sends nothing on the reply slot of that request and ends in
the crash, so the `isCurrentMsg` queued behind it is never taken. -/
theorem validator_panic_unanswered_example :
    sampleWorld.chainProcessBlock [.recv (.processBlockMsg (sampleBlock 0 [5]) 0 1)]
      (sampleBlock 0 [5]) 0 = .panicked ∧
    blockHandler sampleWorld []
        [.msg (.processBlockMsg (sampleBlock 0 [5]) 0 1), .msg (.isCurrentMsg 2)]
      = ([.recv (.processBlockMsg (sampleBlock 0 [5]) 0 1),
          .ChainProcessBlock (sampleBlock 0 [5]) 0], Exit.crashed) ∧
    sends (blockHandler sampleWorld []
        [.msg (.processBlockMsg (sampleBlock 0 [5]) 0 1), .msg (.isCurrentMsg 2)]).1 = [] := by
  decide

/-- C5, amended: a panic of `chain.ProcessBlock` is not caught.  The worker has
then sent nothing on the reply slot of the request, and the run ends in the
crash right after the call, whatever is queued behind the request. -/
theorem validator_panic_stops_worker (w : World) (h : List Event) (block : Block)
    (flags : BehaviorFlags) (reply : Chan) (rest : List Select)
    (hgate : w.Has flags w.BFRPCAdd = false ∨
      w.checkSubMainChainTip (h ++ [.recv (.processBlockMsg block flags reply)])
        block.parents = none)
    (hpanic : w.chainProcessBlock
      (h ++ [.recv (.processBlockMsg block flags reply)] ++ gateEvents w block flags)
      block flags = .panicked) :
    blockHandler w h (.msg (.processBlockMsg block flags reply) :: rest)
      = (h ++ [.recv (.processBlockMsg block flags reply)] ++ gateEvents w block flags
          ++ [.ChainProcessBlock block flags], Exit.crashed) ∧
    sends (gateEvents w block flags ++ [.ChainProcessBlock block flags]) = [] := by
  constructor
  · simp only [blockHandler]
    rw [handleMsg_gate_passed w _ block flags reply hgate,
      processBlockCall_panicked w _ _ block flags reply hpanic]
    simp
  · rw [sends_append, sends_gateEvents]
    simp [sends]

/-- Witness of the amended C5 on the sample world. -/
theorem validator_panic_stops_worker_witness :
    blockHandler sampleWorld []
        (.msg (.processBlockMsg (sampleBlock 0 [5]) 8 1) :: [.msg (.isCurrentMsg 2)])
      = ([] ++ [.recv (.processBlockMsg (sampleBlock 0 [5]) 8 1)]
          ++ gateEvents sampleWorld (sampleBlock 0 [5]) 8
          ++ [.ChainProcessBlock (sampleBlock 0 [5]) 8], Exit.crashed) ∧
    sends (gateEvents sampleWorld (sampleBlock 0 [5]) 8
      ++ [.ChainProcessBlock (sampleBlock 0 [5]) 8]) = [] :=
  validator_panic_stops_worker sampleWorld [] (sampleBlock 0 [5]) 8 1 [.msg (.isCurrentMsg 2)]
    (Or.inr (by decide)) (by decide)

/-- C6: `ProcessTransaction(tx, allowOrphans, rateLimit, allowHighFees)` causes
exactly one call of the mempool's `ProcessTransaction`, with the same four
arguments in the same order, no call on the chain store, and returns exactly the
pair the mempool returned. -/
theorem processTransaction_delegates (w : World) (h : List Event) (reply : Chan) (tx : Tx)
    (allowOrphans rateLimit allowHighFees : Bool) :
    mempoolCalls (ProcessTransaction w h reply tx allowOrphans rateLimit allowHighFees).1
      = [(tx, allowOrphans, rateLimit, allowHighFees)] ∧
    (∀ e ∈ (ProcessTransaction w h reply tx allowOrphans rateLimit allowHighFees).1,
      e.isChainCall = false) ∧
    (ProcessTransaction w h reply tx allowOrphans rateLimit allowHighFees).2
      = some (w.mempoolProcessTransaction
          (h ++ [.recv (.processTransactionMsg tx allowOrphans rateLimit allowHighFees reply)])
          tx allowOrphans rateLimit allowHighFees) := by
  simp [ProcessTransaction, handleMsg, mempoolCalls, chanRecv, Event.isChainCall]

/-! ## Theorems: notification reactor -/

theorem connectedTxLoop_events (w : World) (h : List Event) (txs : List Tx) :
    ∀ (evs : List Event) (txds : List TxDesc),
      (connectedTxLoop w h txs evs txds).1 = evs ++ txs.flatMap perTxEvents := by
  induction txs with
  | nil => intro evs txds; simp [connectedTxLoop]
  | cons tx rest ih =>
      intro evs txds
      simp only [connectedTxLoop, ih, List.flatMap_cons, perTxEvents]
      simp

theorem perTxEvents_isPerTx (txs : List Tx) :
    ∀ e ∈ txs.flatMap perTxEvents, e.isPerTx = true := by
  intro e he
  simp only [List.mem_flatMap, perTxEvents] at he
  obtain ⟨tx, -, he⟩ := he
  simp only [List.mem_cons, List.mem_singleton, List.mem_nil_iff, or_false] at he
  rcases he with rfl | rfl | rfl | rfl | rfl <;> rfl

theorem confirmedCalls_perTxEvents (txs : List Tx) :
    confirmedCalls (txs.flatMap perTxEvents) = txs := by
  induction txs with
  | nil => rfl
  | cons tx rest ih =>
      simp only [List.flatMap_cons, confirmedCalls, List.filterMap_append] at ih ⊢
      rw [ih]
      simp [perTxEvents]

/-- The events of the connected case for a block with the transactions
`coinbase :: ts` and a boolean second slice element: the per-transaction calls,
the announcement, the estimator step and the feed call. -/
theorem connectedBody_events (w : World) (b : BlockManager) (h : List Event)
    (hash header : Nat) (parents : List Hash) (coinbase : Tx) (ts : List Tx) (elig : Bool) :
    connectedBody w b h ⟨hash, header, parents, coinbase :: ts⟩ (some (.bool elig)) =
      ⟨b, ts.flatMap perTxEvents
        ++ [.AnnounceNewTransactions (connectedTxLoop w h ts [] []).2]
        ++ (if w.hasFeeEstimator (h ++ (ts.flatMap perTxEvents
                ++ [.AnnounceNewTransactions (connectedTxLoop w h ts [] []).2])) = true
              ∧ elig = true then
            Event.RegisterBlock ⟨hash, header, parents, coinbase :: ts⟩ ::
              (if w.registerBlock (h ++ (ts.flatMap perTxEvents
                  ++ [.AnnounceNewTransactions (connectedTxLoop w h ts [] []).2]))
                  ⟨hash, header, parents, coinbase :: ts⟩ ≠ none
                then [Event.InitDefaultFeeEstimator] else [])
          else [])
        ++ [.ZmqBlockConnected ⟨hash, header, parents, coinbase :: ts⟩], false⟩ := by
  simp only [connectedBody, connectedTxLoop_events, List.nil_append]
  cases hfe : w.hasFeeEstimator (h ++ (ts.flatMap perTxEvents
      ++ [.AnnounceNewTransactions (connectedTxLoop w h ts [] []).2]))
  · simp
  · cases elig
    · simp
    · cases hr : w.registerBlock (h ++ (ts.flatMap perTxEvents
          ++ [.AnnounceNewTransactions (connectedTxLoop w h ts [] []).2]))
          ⟨hash, header, parents, coinbase :: ts⟩ <;> simp

theorem handleNotifyMsg_connected (w : World) (b : BlockManager) (h : List Event)
    (block : Block) (elig : Bool) :
    handleNotifyMsg w b h ⟨.BlockConnected, .slice [.block block, .bool elig]⟩ =
      connectedBody w b h block (some (.bool elig)) := by
  simp [handleNotifyMsg]

/-- C7: for a connected block with the transactions `coinbase :: ts`, the reactor
first makes, for each `t` of `ts` in block order, the calls
`RemoveTransaction(t, false)`, `RemoveDoubleSpends(t)`, `RemoveOrphan(hash t)`,
`TransactionConfirmed(t)`, `ProcessOrphans(hash t)` in that sequence; no other
call of these five kinds follows, so the coinbase is passed to none of them, and
the notifier receives `TransactionConfirmed` exactly for `ts`, in block order. -/
theorem connected_per_tx_calls (w : World) (b : BlockManager) (h : List Event)
    (hash header : Nat) (parents : List Hash) (coinbase : Tx) (ts : List Tx) (elig : Bool) :
    (∃ tail : List Event,
      (handleNotifyMsg w b h ⟨.BlockConnected,
        .slice [.block ⟨hash, header, parents, coinbase :: ts⟩, .bool elig]⟩).events
        = ts.flatMap (fun t => [Event.RemoveTransaction t false, .RemoveDoubleSpends t,
            .RemoveOrphan t.hash, .TransactionConfirmed t, .ProcessOrphans t.hash]) ++ tail ∧
      ∀ e ∈ tail, e.isPerTx = false) ∧
    confirmedCalls (handleNotifyMsg w b h ⟨.BlockConnected,
        .slice [.block ⟨hash, header, parents, coinbase :: ts⟩, .bool elig]⟩).events = ts ∧
    (confirmedCalls (handleNotifyMsg w b h ⟨.BlockConnected,
        .slice [.block ⟨hash, header, parents, coinbase :: ts⟩, .bool elig]⟩).events).length
      = ts.length ∧
    (handleNotifyMsg w b h ⟨.BlockConnected,
        .slice [.block ⟨hash, header, parents, coinbase :: ts⟩, .bool elig]⟩).faulted = false := by
  rw [handleNotifyMsg_connected, connectedBody_events]
  have hc : confirmedCalls (ts.flatMap perTxEvents
      ++ [.AnnounceNewTransactions (connectedTxLoop w h ts [] []).2]
      ++ (if w.hasFeeEstimator (h ++ (ts.flatMap perTxEvents
                ++ [.AnnounceNewTransactions (connectedTxLoop w h ts [] []).2])) = true
              ∧ elig = true then
            Event.RegisterBlock ⟨hash, header, parents, coinbase :: ts⟩ ::
              (if w.registerBlock (h ++ (ts.flatMap perTxEvents
                  ++ [.AnnounceNewTransactions (connectedTxLoop w h ts [] []).2]))
                  ⟨hash, header, parents, coinbase :: ts⟩ ≠ none
                then [Event.InitDefaultFeeEstimator] else [])
          else [])
      ++ [.ZmqBlockConnected ⟨hash, header, parents, coinbase :: ts⟩]) = ts := by
    have h0 := confirmedCalls_perTxEvents ts
    simp only [confirmedCalls, List.filterMap_append] at h0 ⊢
    rw [h0]
    split <;> [split; skip] <;> simp
  refine ⟨⟨_, by simp only [List.append_assoc]; rfl, ?_⟩, hc, by rw [hc], rfl⟩
  intro e he
  simp only [List.mem_append, List.mem_singleton] at he
  rcases he with rfl | he | rfl
  · rfl
  · split at he
    · simp only [List.mem_cons] at he
      rcases he with rfl | he
      · rfl
      · split at he
        · simp only [List.mem_singleton] at he
          subst he
          rfl
        · simp at he
    · simp at he
  · rfl

theorem registerCalls_eq_nil (l : List Event) (hl : ∀ e ∈ l, e.isConnectedTail = false) :
    registerCalls l = [] := by
  induction l with
  | nil => rfl
  | cons e l ih =>
      have he := hl e (List.mem_cons_self e l)
      have hrest := ih (fun e1 h1 => hl e1 (List.mem_cons_of_mem e h1))
      cases e <;> simp_all [registerCalls, Event.isConnectedTail]

theorem feedConnectedCalls_eq_nil (l : List Event)
    (hl : ∀ e ∈ l, e.isConnectedTail = false) : feedConnectedCalls l = [] := by
  induction l with
  | nil => rfl
  | cons e l ih =>
      have he := hl e (List.mem_cons_self e l)
      have hrest := ih (fun e1 h1 => hl e1 (List.mem_cons_of_mem e h1))
      cases e <;> simp_all [feedConnectedCalls, Event.isConnectedTail]

theorem count_init_eq_zero (l : List Event) (hl : ∀ e ∈ l, e.isConnectedTail = false) :
    l.count Event.InitDefaultFeeEstimator = 0 := by
  rw [List.count_eq_zero]
  intro hmem
  have := hl _ hmem
  simp [Event.isConnectedTail] at this

theorem connected_head_no_tail_event (ts : List Tx) (txds : List TxDesc) :
    ∀ e ∈ ts.flatMap perTxEvents ++ [Event.AnnounceNewTransactions txds],
      e.isConnectedTail = false := by
  intro e he
  simp only [List.mem_append, List.mem_singleton] at he
  rcases he with he | rfl
  · have hp := perTxEvents_isPerTx ts e he
    cases e <;> simp_all [Event.isPerTx, Event.isConnectedTail]
  · rfl

/-- Shape of the end of the connected case: after events `pre` that hold no
estimator or feed call, an optional `RegisterBlock`, an optional
`InitDefaultFeeEstimator` and the feed call. -/
theorem connected_tail_shape (pre : List Event) (block : Block) (c r : Prop)
    [Decidable c] [Decidable r] (hpre : ∀ e ∈ pre, e.isConnectedTail = false) :
    (∀ e ∈ (if c then Event.RegisterBlock block ::
          (if r then [Event.InitDefaultFeeEstimator] else []) else [])
        ++ [Event.ZmqBlockConnected block], e.isConnectedTail = true) ∧
    registerCalls (pre ++ ((if c then Event.RegisterBlock block ::
          (if r then [Event.InitDefaultFeeEstimator] else []) else [])
        ++ [Event.ZmqBlockConnected block])) = (if c then [block] else []) ∧
    (pre ++ ((if c then Event.RegisterBlock block ::
          (if r then [Event.InitDefaultFeeEstimator] else []) else [])
        ++ [Event.ZmqBlockConnected block])).count Event.InitDefaultFeeEstimator
      = (if c ∧ r then 1 else 0) ∧
    feedConnectedCalls (pre ++ ((if c then Event.RegisterBlock block ::
          (if r then [Event.InitDefaultFeeEstimator] else []) else [])
        ++ [Event.ZmqBlockConnected block])) = [block] ∧
    (pre ++ ((if c then Event.RegisterBlock block ::
          (if r then [Event.InitDefaultFeeEstimator] else []) else [])
        ++ [Event.ZmqBlockConnected block])).getLast?
      = some (Event.ZmqBlockConnected block) := by
  have hreg := registerCalls_eq_nil pre hpre
  have hfeed := feedConnectedCalls_eq_nil pre hpre
  have hinit := count_init_eq_zero pre hpre
  simp only [registerCalls, feedConnectedCalls] at hreg hfeed
  simp only [registerCalls, feedConnectedCalls, List.filterMap_append, List.count_append,
    hreg, hfeed, hinit]
  by_cases hc : c <;> by_cases hr : r <;> simp [hc, hr, Event.isConnectedTail]

/-- C8: in the connected case, after the per-transaction calls and the
announcement (the events `pre`), `RegisterBlock(block)` is called exactly when
the tx manager has a fee estimator and the eligibility flag is true;
`InitDefaultFeeEstimator` is called, once, exactly when `RegisterBlock` was
called and returned an error; and in every case the feed's
`BlockConnected(block)` is called exactly once, as the last call. -/
theorem connected_estimator_step (w : World) (b : BlockManager) (h : List Event)
    (hash header : Nat) (parents : List Hash) (coinbase : Tx) (ts : List Tx) (elig : Bool) :
    ∃ pre tail : List Event,
      (handleNotifyMsg w b h ⟨.BlockConnected,
        .slice [.block ⟨hash, header, parents, coinbase :: ts⟩, .bool elig]⟩).events
        = pre ++ tail ∧
      (∀ e ∈ pre, e.isConnectedTail = false) ∧
      (∀ e ∈ tail, e.isConnectedTail = true) ∧
      registerCalls (handleNotifyMsg w b h ⟨.BlockConnected,
        .slice [.block ⟨hash, header, parents, coinbase :: ts⟩, .bool elig]⟩).events
        = (if w.hasFeeEstimator (h ++ pre) = true ∧ elig = true
            then [⟨hash, header, parents, coinbase :: ts⟩] else []) ∧
      (handleNotifyMsg w b h ⟨.BlockConnected,
        .slice [.block ⟨hash, header, parents, coinbase :: ts⟩, .bool elig]⟩).events.count
          Event.InitDefaultFeeEstimator
        = (if (w.hasFeeEstimator (h ++ pre) = true ∧ elig = true) ∧
              w.registerBlock (h ++ pre) ⟨hash, header, parents, coinbase :: ts⟩ ≠ none
            then 1 else 0) ∧
      feedConnectedCalls (handleNotifyMsg w b h ⟨.BlockConnected,
        .slice [.block ⟨hash, header, parents, coinbase :: ts⟩, .bool elig]⟩).events
        = [⟨hash, header, parents, coinbase :: ts⟩] ∧
      (handleNotifyMsg w b h ⟨.BlockConnected,
        .slice [.block ⟨hash, header, parents, coinbase :: ts⟩, .bool elig]⟩).events.getLast?
        = some (.ZmqBlockConnected ⟨hash, header, parents, coinbase :: ts⟩) := by
  rw [handleNotifyMsg_connected, connectedBody_events]
  simp only [List.append_assoc]
  obtain ⟨h1, h2, h3, h4, h5⟩ := connected_tail_shape
    (ts.flatMap perTxEvents ++ [.AnnounceNewTransactions (connectedTxLoop w h ts [] []).2])
    ⟨hash, header, parents, coinbase :: ts⟩
    (w.hasFeeEstimator (h ++ (ts.flatMap perTxEvents
      ++ [.AnnounceNewTransactions (connectedTxLoop w h ts [] []).2])) = true ∧ elig = true)
    (w.registerBlock (h ++ (ts.flatMap perTxEvents
      ++ [.AnnounceNewTransactions (connectedTxLoop w h ts [] []).2]))
      ⟨hash, header, parents, coinbase :: ts⟩ ≠ none)
    (connected_head_no_tail_event ts (connectedTxLoop w h ts [] []).2)
  simp only [List.append_assoc] at h1 h2 h3 h4 h5
  exact ⟨ts.flatMap perTxEvents
      ++ [.AnnounceNewTransactions (connectedTxLoop w h ts [] []).2], _,
    by simp only [List.append_assoc],
    connected_head_no_tail_event ts (connectedTxLoop w h ts [] []).2, h1, h2, h3, h4, h5⟩

/-- C9: for a `BlockAccepted` notification carrying accepted-block data, whatever
its flags, the feed's `BlockAccepted(block)` is called exactly once, and
`RelayInventory` is called, once and with the header of the block, exactly when
`peerServer.IsCurrent()` returns true at that moment (after the events `pre`),
and not at all when it returns false. -/
theorem accepted_feed_always_relay_if_current (w : World) (b : BlockManager)
    (h : List Event) (band : BlockAcceptedNotifyData) :
    ∃ pre post : List Event,
      (handleNotifyMsg w b h ⟨.BlockAccepted, .acceptedData band⟩).events
        = pre ++ [.PeerIsCurrent] ++ post ∧
      Event.PeerIsCurrent ∉ pre ∧
      feedAcceptedCalls (handleNotifyMsg w b h ⟨.BlockAccepted, .acceptedData band⟩).events
        = [band.Block] ∧
      relayCalls (handleNotifyMsg w b h ⟨.BlockAccepted, .acceptedData band⟩).events
        = (if w.peerIsCurrent (h ++ pre) = true then [band.Block.header] else []) ∧
      (handleNotifyMsg w b h ⟨.BlockAccepted, .acceptedData band⟩).faulted = false := by
  cases hp : (band.Flags &&& w.BFP2PAdd == w.BFP2PAdd)
  · cases hc : w.peerIsCurrent (h ++ [.ZmqBlockAccepted band.Block])
    · refine ⟨[.ZmqBlockAccepted band.Block], [], ?_⟩
      simp [handleNotifyMsg, hp, hc, feedAcceptedCalls, relayCalls]
    · refine ⟨[.ZmqBlockAccepted band.Block], [.RelayInventory band.Block.header], ?_⟩
      simp [handleNotifyMsg, hp, hc, feedAcceptedCalls, relayCalls]
  · cases hc : w.peerIsCurrent (h ++ [.LogBlockHeight band.Block, .ZmqBlockAccepted band.Block])
    · refine ⟨[.LogBlockHeight band.Block, .ZmqBlockAccepted band.Block], [], ?_⟩
      simp [handleNotifyMsg, hp, hc, feedAcceptedCalls, relayCalls]
    · refine ⟨[.LogBlockHeight band.Block, .ZmqBlockAccepted band.Block],
        [.RelayInventory band.Block.header], ?_⟩
      simp [handleNotifyMsg, hp, hc, feedAcceptedCalls, relayCalls]

/-! ## Theorems: checkpoint lookup -/

/-- What the backward scan returns, for any list: started at index `k` with the
candidate `checkpoints[k]` above `layer`, it returns the entry of an index
`j ≤ k` such that every entry from `j` to `k` is above `layer` and the entry
before `j`, if there is one, is not. -/
theorem findNextLoop_spec (cps : List Checkpoint) (layer : Nat) :
    ∀ (k : Nat) (next : Checkpoint), cps[k]? = some next → layer < next.Layer →
      ∃ j, j ≤ k ∧ cps[j]? = some (findNextLoop cps layer k next) ∧
        (j = 0 ∨ ∃ c, cps[j - 1]? = some c ∧ c.Layer ≤ layer) ∧
        (∀ i c, j ≤ i → i ≤ k → cps[i]? = some c → layer < c.Layer) := by
  intro k
  induction k with
  | zero =>
      intro next hk hlt
      refine ⟨0, le_refl 0, by simpa [findNextLoop] using hk, Or.inl rfl, ?_⟩
      intro i c _ hi hc
      have hi0 : i = 0 := by omega
      subst hi0
      rw [hk] at hc
      cases hc
      exact hlt
  | succ i ih =>
      intro next hk hlt
      have hlen : i + 1 < cps.length := (List.getElem?_eq_some.mp hk).1
      have hi : i < cps.length := by omega
      have hci : cps[i]? = some cps[i] := List.getElem?_eq_getElem hi
      by_cases hge : layer ≥ cps[i].Layer
      · refine ⟨i + 1, le_refl _, ?_, Or.inr ⟨cps[i], by simp, hge⟩, ?_⟩
        · simp only [findNextLoop, hci, hge, if_true]
          exact hk
        · intro i1 c h1 h2 hc
          have : i1 = i + 1 := by omega
          subst this
          rw [hk] at hc
          cases hc
          exact hlt
      · have hlt1 : layer < cps[i].Layer := by omega
        obtain ⟨j, hj, hres, hbelow, habove⟩ := ih cps[i] hci hlt1
        refine ⟨j, by omega, ?_, hbelow, ?_⟩
        · simp only [findNextLoop, hci, hge, if_false]
          exact hres
        · intro i1 c h1 h2 hc
          by_cases hi1 : i1 ≤ i
          · exact habove i1 c h1 hi1 hc
          · have : i1 = i + 1 := by omega
            subst this
            rw [hk] at hc
            cases hc
            exact hlt

/-- In a list with strictly ascending layers, an entry at a smaller or equal
index has a smaller or equal layer. -/
theorem ascending_index_le (cps : List Checkpoint)
    (hasc : cps.Pairwise (fun x y => x.Layer < y.Layer)) (i j : Nat) (x y : Checkpoint)
    (hij : i ≤ j) (hx : cps[i]? = some x) (hy : cps[j]? = some y) : x.Layer ≤ y.Layer := by
  obtain ⟨hi, rfl⟩ := List.getElem?_eq_some.mp hx
  obtain ⟨hj, rfl⟩ := List.getElem?_eq_some.mp hy
  rcases Nat.lt_or_eq_of_le hij with hlt | heq
  · exact Nat.le_of_lt (List.pairwise_iff_getElem.mp hasc i j hi hj hlt)
  · subst heq
    exact le_refl _

/-- C10: with checkpoints enabled, for a checkpoint list with strictly ascending
layers and a layer below the layer of the last checkpoint,
`findNextHeaderCheckpoint` returns the checkpoint of the list with the least
layer strictly greater than the given one. -/
theorem findNext_ascending_minimal (b : BlockManager) (layer : Nat) (last : Checkpoint)
    (hen : b.DisableCheckpoints = false)
    (hasc : b.Checkpoints.Pairwise (fun x y => x.Layer < y.Layer))
    (hlast : b.Checkpoints.getLast? = some last)
    (hlt : layer < last.Layer) :
    ∃ c, findNextHeaderCheckpoint b layer = some c ∧ c ∈ b.Checkpoints ∧
      layer < c.Layer ∧
      ∀ c1 ∈ b.Checkpoints, layer < c1.Layer → c.Layer ≤ c1.Layer := by
  have hk : b.Checkpoints[b.Checkpoints.length - 1]? = some last := by
    rw [← List.getLast?_eq_getElem?]
    exact hlast
  obtain ⟨j, hj, hres, hbelow, habove⟩ :=
    findNextLoop_spec b.Checkpoints layer (b.Checkpoints.length - 1) last hk hlt
  refine ⟨findNextLoop b.Checkpoints layer (b.Checkpoints.length - 1) last, ?_,
    List.mem_iff_getElem?.mpr ⟨j, hres⟩, habove j _ (le_refl j) hj hres, ?_⟩
  · simp [findNextHeaderCheckpoint, hen, hlast, Nat.not_le.mpr hlt]
  · intro c1 hc1 hgt
    obtain ⟨i, hi⟩ := List.mem_iff_getElem?.mp hc1
    by_cases hij : j ≤ i
    · exact ascending_index_le b.Checkpoints hasc j i _ c1 hij hres hi
    · rcases hbelow with h0 | ⟨c, hc, hcle⟩
      · omega
      · have := ascending_index_le b.Checkpoints hasc i (j - 1) c1 c (by omega) hi hc
        omega

/-- Witness of C10: the layers 1000, 5000, 10000 and the query 4000 give the
checkpoint at 5000. -/
theorem findNext_ascending_minimal_witness :
    (∃ c, findNextHeaderCheckpoint sampleManager 4000 = some c ∧
      c ∈ sampleManager.Checkpoints ∧ 4000 < c.Layer ∧
      ∀ c1 ∈ sampleManager.Checkpoints, 4000 < c1.Layer → c.Layer ≤ c1.Layer) ∧
    findNextHeaderCheckpoint sampleManager 4000 = some ⟨5000, 12⟩ :=
  ⟨findNext_ascending_minimal sampleManager 4000 ⟨10000, 13⟩ rfl
      (by simp [sampleManager]) (by simp [sampleManager]) (by decide),
    by decide⟩

/-- C11: `findNextHeaderCheckpoint` returns nil exactly when checkpoints are
disabled, or the checkpoint list is empty, or the layer is at or past the layer
of the last checkpoint of the list; in every other case it returns a
checkpoint. -/
theorem findNext_none_iff (b : BlockManager) (layer : Nat) :
    (findNextHeaderCheckpoint b layer = none ↔
      (b.DisableCheckpoints = true ∨ b.Checkpoints = [] ∨
        ∃ last, b.Checkpoints.getLast? = some last ∧ layer ≥ last.Layer)) ∧
    ((findNextHeaderCheckpoint b layer).isSome = true ↔
      ¬ (b.DisableCheckpoints = true ∨ b.Checkpoints = [] ∨
        ∃ last, b.Checkpoints.getLast? = some last ∧ layer ≥ last.Layer)) := by
  have key : findNextHeaderCheckpoint b layer = none ↔
      (b.DisableCheckpoints = true ∨ b.Checkpoints = [] ∨
        ∃ last, b.Checkpoints.getLast? = some last ∧ layer ≥ last.Layer) := by
    unfold findNextHeaderCheckpoint
    cases hd : b.DisableCheckpoints
    · cases hl : b.Checkpoints.getLast? with
      | none =>
          have : b.Checkpoints = [] := List.getLast?_eq_none_iff.mp hl
          simp [this]
      | some last =>
          have hne : b.Checkpoints ≠ [] := by
            intro h0
            rw [h0] at hl
            cases hl
          by_cases hge : layer ≥ last.Layer
          · simp [hge]
          · simp [hge, hne]
    · simp
  refine ⟨key, ?_⟩
  rw [← key]
  cases findNextHeaderCheckpoint b layer <;> simp

/-- In a list with ascending layers, an entry at a smaller or equal index has a
smaller or equal layer. -/
theorem sorted_index_le (cps : List Checkpoint)
    (hasc : cps.Pairwise (fun x y => x.Layer ≤ y.Layer)) (i j : Nat) (x y : Checkpoint)
    (hij : i ≤ j) (hx : cps[i]? = some x) (hy : cps[j]? = some y) : x.Layer ≤ y.Layer := by
  obtain ⟨hi, rfl⟩ := List.getElem?_eq_some.mp hx
  obtain ⟨hj, rfl⟩ := List.getElem?_eq_some.mp hy
  rcases Nat.lt_or_eq_of_le hij with hlt | heq
  · exact List.pairwise_iff_getElem.mp hasc i j hi hj hlt
  · subst heq
    exact le_refl _

/-- C12, as stated, fails: on the descending list with the layers 10000, 5000,
1000 the checkpoint at 5000 is ahead of 4000, yet the lookup returns nil; and for
the layer 500 it returns the checkpoint at 10000, not the one at 1000. -/
theorem findNext_descending_example :
    descendingManager.DisableCheckpoints = false ∧
    descendingManager.Checkpoints.Pairwise (fun x y => x.Layer > y.Layer) ∧
    (∃ c ∈ descendingManager.Checkpoints, 4000 < c.Layer) ∧
    findNextHeaderCheckpoint descendingManager 4000 = none ∧
    findNextHeaderCheckpoint descendingManager 500 = some ⟨10000, 13⟩ ∧
    (⟨1000, 11⟩ : Checkpoint) ∈ descendingManager.Checkpoints := by
  refine ⟨rfl, by simp [descendingManager], ⟨⟨5000, 12⟩, by simp [descendingManager], by decide⟩,
    by decide, by decide, by simp [descendingManager]⟩

/-- C12, amended: with checkpoints enabled, for a checkpoint list sorted in
ascending order by layer and a layer that some checkpoint of the list is ahead
of, `findNextHeaderCheckpoint` returns the earliest checkpoint still ahead: a
checkpoint of the list with the smallest layer strictly greater than the given
one. -/
theorem findNext_sorted_earliest_ahead (b : BlockManager) (layer : Nat)
    (hen : b.DisableCheckpoints = false)
    (hasc : b.Checkpoints.Pairwise (fun x y => x.Layer ≤ y.Layer))
    (hahead : ∃ c0 ∈ b.Checkpoints, layer < c0.Layer) :
    ∃ c, findNextHeaderCheckpoint b layer = some c ∧ c ∈ b.Checkpoints ∧
      layer < c.Layer ∧
      ∀ c1 ∈ b.Checkpoints, layer < c1.Layer → c.Layer ≤ c1.Layer := by
  obtain ⟨c0, hc0, hlt0⟩ := hahead
  obtain ⟨i0, hi0⟩ := List.mem_iff_getElem?.mp hc0
  have hlen0 : i0 < b.Checkpoints.length := (List.getElem?_eq_some.mp hi0).1
  have hpos : b.Checkpoints.length - 1 < b.Checkpoints.length := by omega
  obtain ⟨last, hk⟩ : ∃ last, b.Checkpoints[b.Checkpoints.length - 1]? = some last :=
    ⟨_, List.getElem?_eq_getElem hpos⟩
  have hlast : b.Checkpoints.getLast? = some last := by
    rw [List.getLast?_eq_getElem?]
    exact hk
  have hlt : layer < last.Layer := by
    have := sorted_index_le b.Checkpoints hasc i0 (b.Checkpoints.length - 1) c0 last
      (by omega) hi0 hk
    omega
  obtain ⟨j, hj, hres, hbelow, habove⟩ :=
    findNextLoop_spec b.Checkpoints layer (b.Checkpoints.length - 1) last hk hlt
  refine ⟨_, ?_, List.mem_iff_getElem?.mpr ⟨j, hres⟩, habove j _ (le_refl j) hj hres, ?_⟩
  · simp [findNextHeaderCheckpoint, hen, hlast, Nat.not_le.mpr hlt]
  · intro c1 hc1 hgt
    obtain ⟨i, hi⟩ := List.mem_iff_getElem?.mp hc1
    by_cases hij : j ≤ i
    · exact sorted_index_le b.Checkpoints hasc j i _ c1 hij hres hi
    · rcases hbelow with h0 | ⟨c, hc, hcle⟩
      · omega
      · have := sorted_index_le b.Checkpoints hasc i (j - 1) c1 c (by omega) hi hc
        omega

/-- Witness of the amended C12: the layers 1000, 5000, 10000 and the query 1000
give the checkpoint at 5000. -/
theorem findNext_sorted_earliest_ahead_witness :
    (∃ c, findNextHeaderCheckpoint sampleManager 1000 = some c ∧
      c ∈ sampleManager.Checkpoints ∧ 1000 < c.Layer ∧
      ∀ c1 ∈ sampleManager.Checkpoints, 1000 < c1.Layer → c.Layer ≤ c1.Layer) ∧
    findNextHeaderCheckpoint sampleManager 1000 = some ⟨5000, 12⟩ :=
  ⟨findNext_sorted_earliest_ahead sampleManager 1000 rfl
      (by simp [sampleManager])
      ⟨⟨10000, 13⟩, by simp [sampleManager], by decide⟩,
    by decide⟩

/-- C20: for any checkpoint list, sorted or not, a checkpoint returned by
`findNextHeaderCheckpoint` is an element of the configured list and its layer is
strictly greater than the given one. -/
theorem findNext_result_member_above (b : BlockManager) (layer : Nat) (c : Checkpoint)
    (hres : findNextHeaderCheckpoint b layer = some c) :
    c ∈ b.Checkpoints ∧ layer < c.Layer := by
  unfold findNextHeaderCheckpoint at hres
  cases hd : b.DisableCheckpoints
  · rw [hd] at hres
    cases hl : b.Checkpoints.getLast? with
    | none => simp [hl] at hres
    | some last =>
        by_cases hge : layer ≥ last.Layer
        · simp [hl, hge] at hres
        · have hlt : layer < last.Layer := by omega
          have hk : b.Checkpoints[b.Checkpoints.length - 1]? = some last := by
            rw [← List.getLast?_eq_getElem?]
            exact hl
          obtain ⟨j, hj, hj2, -, habove⟩ :=
            findNextLoop_spec b.Checkpoints layer (b.Checkpoints.length - 1) last hk hlt
          simp only [hl, hge, Bool.false_eq_true, if_false, Option.some.injEq] at hres
          subst hres
          exact ⟨List.mem_iff_getElem?.mpr ⟨j, hj2⟩, habove j _ (le_refl j) hj hj2⟩
  · simp [hd] at hres

/-- Witness of C20 on a list that is not sorted: the descending sample list and
the layer 500. -/
theorem findNext_result_member_above_witness :
    (⟨10000, 13⟩ : Checkpoint) ∈ descendingManager.Checkpoints ∧
      500 < (⟨10000, 13⟩ : Checkpoint).Layer :=
  findNext_result_member_above descendingManager 500 ⟨10000, 13⟩ (by decide)

/-! ## Theorems: header state -/

/-- C15: after `resetHeaderState(newestHash, newestHeight)` the headers-first
mode is false, the start-header cursor is empty, and the header list is exactly
the one entry `{newestHeight, newestHash}` when a next checkpoint exists and
empty otherwise, whatever it held before; the next checkpoint is unchanged. -/
theorem resetHeaderState_spec (b : BlockManager) (newestHash : Hash) (newestHeight : Nat) :
    (resetHeaderState b newestHash newestHeight).headersFirstMode = false ∧
    (resetHeaderState b newestHash newestHeight).startHeader = none ∧
    (resetHeaderState b newestHash newestHeight).headerList
      = (if b.nextCheckpoint.isSome = true then [⟨newestHeight, newestHash⟩] else []) ∧
    (resetHeaderState b newestHash newestHeight).nextCheckpoint = b.nextCheckpoint := by
  unfold resetHeaderState
  cases hn : b.nextCheckpoint <;> simp [hn]

theorem connectedBody_b (w : World) (b : BlockManager) (h : List Event) (block : Block)
    (flag : Option Elem) : (connectedBody w b h block flag).b = b := by
  unfold connectedBody
  split
  · rfl
  · dsimp only
    repeat' split
    all_goals rfl

/-- The reactor writes no field of the block manager but `lastProgressTime`. -/
theorem handleNotifyMsg_header_fields (w : World) (b : BlockManager) (h : List Event)
    (n : Notification) :
    (handleNotifyMsg w b h n).b.headersFirstMode = b.headersFirstMode ∧
    (handleNotifyMsg w b h n).b.startHeader = b.startHeader := by
  obtain ⟨ty, data⟩ := n
  cases ty <;> cases data
  all_goals simp only [handleNotifyMsg]
  all_goals first
    | exact ⟨rfl, rfl⟩
    | exact ⟨trivial, trivial⟩
    | (split_ifs <;> first
        | exact ⟨rfl, rfl⟩
        | (split <;> first
            | exact ⟨rfl, rfl⟩
            | (rw [connectedBody_b]; exact ⟨rfl, rfl⟩)))

theorem NewBlockManager_header_fields (disableCheckpoints : Bool)
    (checkpoints : List Checkpoint) (bestHash : Hash) (bestMainHeight : Nat) :
    (NewBlockManager disableCheckpoints checkpoints bestHash bestMainHeight).headersFirstMode
      = false ∧
    (NewBlockManager disableCheckpoints checkpoints bestHash bestMainHeight).startHeader
      = none := by
  unfold NewBlockManager
  simp only
  split
  · split
    · exact ⟨(resetHeaderState_spec _ _ _).1, (resetHeaderState_spec _ _ _).2.1⟩
    · exact ⟨rfl, rfl⟩
  · exact ⟨rfl, rfl⟩

theorem applyOp_header_fields (w : World) (s : BlockManager × List Event) (op : Op)
    (hs : s.1.headersFirstMode = false ∧ s.1.startHeader = none) :
    (applyOp w s op).1.headersFirstMode = false ∧ (applyOp w s op).1.startHeader = none := by
  cases op with
  | reset newestHash newestHeight =>
      exact ⟨(resetHeaderState_spec _ _ _).1, (resetHeaderState_spec _ _ _).2.1⟩
  | request m => exact hs
  | notification n =>
      obtain ⟨h1, h2⟩ := handleNotifyMsg_header_fields w s.1 s.2 n
      exact ⟨h1.trans hs.1, h2.trans hs.2⟩

theorem applyOps_header_fields (w : World) (ops : List Op) :
    ∀ s : BlockManager × List Event,
      (s.1.headersFirstMode = false ∧ s.1.startHeader = none) →
      (applyOps w s ops).1.headersFirstMode = false ∧
        (applyOps w s ops).1.startHeader = none := by
  induction ops with
  | nil => intro s hs; exact hs
  | cons op rest ih =>
      intro s hs
      exact ih (applyOp w s op) (applyOp_header_fields w s op hs)

/-- C19: in every state reached from `NewBlockManager` by any sequence of
`resetHeaderState` calls, handled requests and handled notifications, the
headers-first mode is false and the start-header cursor is empty. -/
theorem headersFirstMode_never_set (w : World) (disableCheckpoints : Bool)
    (checkpoints : List Checkpoint) (bestHash : Hash) (bestMainHeight : Nat)
    (ops : List Op) :
    (applyOps w (NewBlockManager disableCheckpoints checkpoints bestHash bestMainHeight, [])
      ops).1.headersFirstMode = false ∧
    (applyOps w (NewBlockManager disableCheckpoints checkpoints bestHash bestMainHeight, [])
      ops).1.startHeader = none :=
  applyOps_header_fields w ops _
    (NewBlockManager_header_fields disableCheckpoints checkpoints bestHash bestMainHeight)

/-! ## Theorems: reactor, further cases -/

/-- The payload shapes that `handleNotifyMsg` checks are dropped without any
call: accepted without accepted-block data, connected with a payload that is no
slice or a slice of another length than two, disconnected without a block. -/
theorem handleNotifyMsg_checked_shapes_dropped (w : World) (b : BlockManager)
    (h : List Event) (data : Data) (blockSlice : List Elem) (hlen : blockSlice.length ≠ 2) :
    ((∀ band, data ≠ .acceptedData band) →
      handleNotifyMsg w b h ⟨.BlockAccepted, data⟩ = ⟨b, [], false⟩) ∧
    ((∀ xs, data ≠ .slice xs) →
      handleNotifyMsg w b h ⟨.BlockConnected, data⟩ = ⟨b, [], false⟩) ∧
    handleNotifyMsg w b h ⟨.BlockConnected, .slice blockSlice⟩ = ⟨b, [], false⟩ ∧
    ((∀ block, data ≠ .block block) →
      handleNotifyMsg w b h ⟨.BlockDisconnected, data⟩ = ⟨b, [], false⟩) := by
  refine ⟨?_, ?_, ?_, ?_⟩
  · intro hd
    cases data with
    | acceptedData band => exact absurd rfl (hd band)
    | slice xs => rfl
    | block blk => rfl
    | other tag => rfl
  · intro hd
    cases data with
    | acceptedData band => rfl
    | slice xs => exact absurd rfl (hd xs)
    | block blk => rfl
    | other tag => rfl
  · simp [handleNotifyMsg, hlen]
  · intro hd
    cases data with
    | acceptedData band => rfl
    | slice xs => rfl
    | block blk => exact absurd rfl (hd blk)
    | other tag => rfl

/-- C13, at the failing inputs: a connected notification whose two-element slice
does not start with a block makes `handleNotifyMsg` panic; one whose second
element is no boolean has already made its mempool and notifier calls and then
panics when there is a fee estimator. -/
theorem connected_wrong_element_panics :
    (handleNotifyMsg sampleWorld sampleManager []
      ⟨.BlockConnected, .slice [.other 42, .bool true]⟩).faulted = true ∧
    (handleNotifyMsg sampleWorld sampleManager []
      ⟨.BlockConnected, .slice [.block (sampleBlock 3 [5]), .other 0]⟩).faulted = true ∧
    (handleNotifyMsg sampleWorld sampleManager []
      ⟨.BlockConnected, .slice [.block (sampleBlock 3 [5]), .other 0]⟩).events
      = [.RemoveTransaction ⟨7⟩ false, .RemoveDoubleSpends ⟨7⟩, .RemoveOrphan 7,
          .TransactionConfirmed ⟨7⟩, .ProcessOrphans 7,
          .RemoveTransaction ⟨8⟩ false, .RemoveDoubleSpends ⟨8⟩, .RemoveOrphan 8,
          .TransactionConfirmed ⟨8⟩, .ProcessOrphans 8,
          .AnnounceNewTransactions [⟨⟨70⟩⟩]] := by
  decide

/-- C14: for a `BlockDisconnected` notification carrying a block, the fee
estimator's `Rollback` is called exactly once, with the hash of the block, when
the tx manager has a fee estimator, and not at all otherwise; the feed's
`BlockDisconnected(block)` is called exactly once in both cases, as the last
call; no mempool call and no notifier call is made. -/
theorem disconnected_rollback_and_feed (w : World) (b : BlockManager) (h : List Event)
    (block : Block) :
    rollbackCalls (handleNotifyMsg w b h ⟨.BlockDisconnected, .block block⟩).events
      = (if w.hasFeeEstimator h = true then [block.hash] else []) ∧
    feedDisconnectedCalls (handleNotifyMsg w b h ⟨.BlockDisconnected, .block block⟩).events
      = [block] ∧
    (handleNotifyMsg w b h ⟨.BlockDisconnected, .block block⟩).events.getLast?
      = some (.ZmqBlockDisconnected block) ∧
    (∀ e ∈ (handleNotifyMsg w b h ⟨.BlockDisconnected, .block block⟩).events,
      e.isMempoolCall = false ∧ e.isNotifierCall = false) ∧
    (handleNotifyMsg w b h ⟨.BlockDisconnected, .block block⟩).faulted = false := by
  cases hfe : w.hasFeeEstimator h <;>
    simp [handleNotifyMsg, hfe, rollbackCalls, feedDisconnectedCalls, Event.isMempoolCall,
      Event.isNotifierCall]

/-- C16: for an `isCurrentMsg` the worker calls `peerServer.IsCurrent()` once and
replies with the boolean it returned at that moment; it makes no call on the
chain store or the mempool, and the caller of `Current` gets that boolean. -/
theorem isCurrent_reply_is_peer_status (w : World) (h : List Event) (reply : Chan) :
    sends (handleMsg w h (.isCurrentMsg reply)).events
      = [(reply, .current (w.peerIsCurrent h))] ∧
    (handleMsg w h (.isCurrentMsg reply)).events.count Event.PeerIsCurrent = 1 ∧
    (∀ e ∈ (handleMsg w h (.isCurrentMsg reply)).events,
      e.isChainCall = false ∧ e.isMempoolCall = false) ∧
    (handleMsg w h (.isCurrentMsg reply)).faulted = false ∧
    (Current w h reply).2 = some (w.peerIsCurrent (h ++ [.recv (.isCurrentMsg reply)])) := by
  simp [handleMsg, sends, Current, chanRecv, Event.isChainCall, Event.isMempoolCall]

theorem connectedTxLoop_batch (w : World) (h : List Event) (txs : List Tx) :
    ∀ (evs : List Event) (txds : List TxDesc),
      (connectedTxLoop w h txs evs txds).2 = txds ++ promotedBatch w h evs txs := by
  induction txs with
  | nil => intro evs txds; simp [connectedTxLoop, promotedBatch]
  | cons tx rest ih =>
      intro evs txds
      simp only [connectedTxLoop, promotedBatch, ih, perTxEvents]
      simp

theorem announceCalls_perTxEvents (txs : List Tx) :
    announceCalls (txs.flatMap perTxEvents) = [] := by
  induction txs with
  | nil => rfl
  | cons tx rest ih =>
      simp only [List.flatMap_cons, announceCalls, List.filterMap_append] at ih ⊢
      rw [ih]
      simp [perTxEvents]

theorem promotedBatch_source (w : World) (h : List Event) (txs : List Tx) :
    ∀ (done : List Event), ∀ d ∈ promotedBatch w h done txs,
      ∃ hist t, t ∈ txs ∧ d ∈ w.processOrphans hist t.hash := by
  induction txs with
  | nil => intro done d hd; simp [promotedBatch] at hd
  | cons tx rest ih =>
      intro done d hd
      simp only [promotedBatch, List.mem_append] at hd
      rcases hd with hd | hd
      · exact ⟨_, tx, List.mem_cons_self tx rest, hd⟩
      · obtain ⟨hist, t, ht, hdt⟩ := ih _ d hd
        exact ⟨hist, t, List.mem_cons_of_mem tx ht, hdt⟩

/-- C18: in the connected case `AnnounceNewTransactions` is called exactly once,
right after all per-transaction calls, and its batch is the concatenation, in
block order, of the descriptor lists that `ProcessOrphans` returned for the
transactions after the coinbase; every descriptor of the batch comes from one of
these lists, so the batch is empty when no orphan was promoted, and it is empty
for a block with only a coinbase. -/
theorem connected_announce_once (w : World) (b : BlockManager) (h : List Event)
    (hash header : Nat) (parents : List Hash) (coinbase : Tx) (ts : List Tx) (elig : Bool) :
    (∃ tail : List Event,
      (handleNotifyMsg w b h ⟨.BlockConnected,
        .slice [.block ⟨hash, header, parents, coinbase :: ts⟩, .bool elig]⟩).events
        = ts.flatMap perTxEvents
          ++ [Event.AnnounceNewTransactions (promotedBatch w h [] ts)] ++ tail ∧
      (∀ e ∈ tail, e.isConnectedTail = true)) ∧
    announceCalls (handleNotifyMsg w b h ⟨.BlockConnected,
        .slice [.block ⟨hash, header, parents, coinbase :: ts⟩, .bool elig]⟩).events
      = [promotedBatch w h [] ts] ∧
    (∀ d ∈ promotedBatch w h [] ts,
      ∃ hist t, t ∈ ts ∧ d ∈ w.processOrphans hist t.hash) ∧
    announceCalls (handleNotifyMsg w b h ⟨.BlockConnected,
        .slice [.block ⟨hash, header, parents, [coinbase]⟩, .bool elig]⟩).events = [[]] := by
  have hbatch : ∀ txs, (connectedTxLoop w h txs [] []).2 = promotedBatch w h [] txs := by
    intro txs
    rw [connectedTxLoop_batch]
    rfl
  have hann : ∀ (txs : List Tx) (blk : Block) (c r : Prop) [Decidable c] [Decidable r],
      announceCalls (txs.flatMap perTxEvents
        ++ [Event.AnnounceNewTransactions (promotedBatch w h [] txs)]
        ++ (if c then Event.RegisterBlock blk ::
            (if r then [Event.InitDefaultFeeEstimator] else []) else [])
        ++ [Event.ZmqBlockConnected blk]) = [promotedBatch w h [] txs] := by
    intro txs blk c r _ _
    have h0 := announceCalls_perTxEvents txs
    simp only [announceCalls, List.filterMap_append] at h0 ⊢
    rw [h0]
    by_cases hc : c <;> by_cases hr : r <;> simp [hc, hr]
  refine ⟨?_, ?_, promotedBatch_source w h ts [], ?_⟩
  · rw [handleNotifyMsg_connected, connectedBody_events, hbatch]
    refine ⟨_, by simp only [List.append_assoc]; rfl, ?_⟩
    exact (connected_tail_shape [] ⟨hash, header, parents, coinbase :: ts⟩ _ _
      (by simp)).1
  · rw [handleNotifyMsg_connected, connectedBody_events, hbatch]
    exact hann ts _ _ _
  · rw [handleNotifyMsg_connected, connectedBody_events, hbatch]
    exact hann [] _ _ _

/-- C21: handling a connected notification with a block and a boolean never
indexes outside the transaction list when the block has at least one
transaction; the slice `Transactions()[1:]` is in bounds exactly when the list is
not empty, and a block without transactions ends in the out-of-range panic,
before any call. -/
theorem connected_slice_in_bounds_iff (w : World) (b : BlockManager) (h : List Event)
    (block : Block) (elig : Bool) :
    ((handleNotifyMsg w b h ⟨.BlockConnected, .slice [.block block, .bool elig]⟩).faulted
      = false ↔ block.transactions ≠ []) ∧
    ((handleNotifyMsg w b h ⟨.BlockConnected, .slice [.block block, .bool elig]⟩).faulted
      = true ↔ block.transactions = []) ∧
    (handleNotifyMsg w b h ⟨.BlockConnected,
      .slice [.block ⟨block.hash, block.header, block.parents, []⟩, .bool elig]⟩)
      = ⟨b, [], true⟩ := by
  rw [handleNotifyMsg_connected, handleNotifyMsg_connected]
  obtain ⟨hash, header, parents, txs⟩ := block
  cases txs with
  | nil => simp [connectedBody]
  | cons coinbase ts =>
      rw [connectedBody_events]
      simp [connectedBody]

end Blkmgr

/-! # Theorems: MeerEVM fork rules -/

namespace Forks

/-- C24: `IsMeerEVMValid(tx, ip, h)` is true only on MainNet, at a main height of
at least 959000 (so `IsMeerEVMForkHeight(h)` and `IsMeerEVMValidHeight(h)` hold),
for a cross-chain export transaction whose input spends an output for which
`IsMaxLockUTXOInGenesis` holds; on every other network the three functions
return false for every height. -/
theorem IsMeerEVMValid_true_implies (env : Env) (tx : Transaction) (ip : TxInput)
    (mainHeight : Int) :
    (IsMeerEVMValid env tx ip mainHeight = .returned true →
      env.Net = env.MainNet ∧ mainHeight ≥ 959000 ∧
      IsMeerEVMForkHeight env mainHeight = true ∧
      IsMeerEVMValidHeight env mainHeight = true ∧
      env.IsCrossChainExportTx tx = true ∧
      IsMaxLockUTXOInGenesis env ip.PreviousOut = .returned true) ∧
    (env.Net ≠ env.MainNet →
      IsMeerEVMValid env tx ip mainHeight = .returned false ∧
      IsMeerEVMForkHeight env mainHeight = false ∧
      IsMeerEVMValidHeight env mainHeight = false) := by
  constructor
  · intro hv
    unfold IsMeerEVMValid at hv
    by_cases hnet : env.Net = env.MainNet
    · by_cases hh : mainHeight < MeerEVMForkMainHeight ∨ mainHeight < MeerEVMValidMainHeight
      · simp [hnet, hh] at hv
      · cases hx : env.IsCrossChainExportTx tx
        · simp [hnet, hh, hx] at hv
        · simp only [hnet, hh, hx, ne_eq, not_true_eq_false, if_false, Bool.not_true,
            Bool.false_eq_true] at hv
          simp only [MeerEVMForkMainHeight, MeerEVMValidMainHeight, not_or, not_lt] at hh
          refine ⟨hnet, hh.1, ?_, ?_, rfl, hv⟩
          · simp [IsMeerEVMForkHeight, hnet, MeerEVMForkMainHeight, hh.1]
          · simp [IsMeerEVMValidHeight, hnet, MeerEVMValidMainHeight, hh.2]
    · simp [hnet] at hv
  · intro hnet
    simp [IsMeerEVMValid, IsMeerEVMForkHeight, IsMeerEVMValidHeight, hnet]

/-- Witness of C24 on the sample environment: on MainNet at height 959000 the
export transaction spending the locked genesis output is valid, and on the
network 2 nothing is. -/
theorem IsMeerEVMValid_true_implies_witness :
    ((sampleEnv 1).Net = (sampleEnv 1).MainNet ∧ (959000 : Int) ≥ 959000 ∧
      IsMeerEVMForkHeight (sampleEnv 1) 959000 = true ∧
      IsMeerEVMValidHeight (sampleEnv 1) 959000 = true ∧
      (sampleEnv 1).IsCrossChainExportTx ⟨9, []⟩ = true ∧
      IsMaxLockUTXOInGenesis (sampleEnv 1) (⟨⟨5, 0⟩⟩ : TxInput).PreviousOut
        = .returned true) ∧
    (IsMeerEVMValid (sampleEnv 2) ⟨9, []⟩ ⟨⟨5, 0⟩⟩ 959000 = .returned false ∧
      IsMeerEVMForkHeight (sampleEnv 2) 959000 = false ∧
      IsMeerEVMValidHeight (sampleEnv 2) 959000 = false) :=
  ⟨(IsMeerEVMValid_true_implies (sampleEnv 1) ⟨9, []⟩ ⟨⟨5, 0⟩⟩ 959000).1 (by decide),
    (IsMeerEVMValid_true_implies (sampleEnv 2) ⟨9, []⟩ ⟨⟨5, 0⟩⟩ 959000).2 (by decide)⟩

end Forks

/-! # Theorems: command-line flags of qx -/

namespace Qx

theorem Split_length (sep : Char) (s : GoString) :
    (Split sep s).length = s.count sep + 1 := by
  induction s with
  | nil => rfl
  | cons c rest ih =>
      by_cases hc : c = sep
      · subst hc
        simp [Split, ih]
      · have hne : (c == sep) = false := by simpa using hc
        simp only [Split, hc, if_false, List.count_cons, hne]
        cases hs : Split sep rest with
        | nil => simp [hs] at ih
        | cons field fields =>
            rw [hs] at ih
            simpa using ih

theorem fromHexChar_some (c : Char) (a : Nat) (h : fromHexChar c = some a) :
    isHexChar c = true := by
  unfold fromHexChar at h
  unfold isHexChar
  split_ifs at h with h1 h2 h3
  · simp [h1.1, h1.2]
  · simp [h2.1, h2.2]
  · simp [h3.1, h3.2]

theorem fromHexChar_of_isHexChar (c : Char) (h : isHexChar c = true) :
    ∃ a, fromHexChar c = some a := by
  unfold isHexChar at h
  unfold fromHexChar
  simp only [Bool.or_eq_true, Bool.and_eq_true, decide_eq_true_eq] at h
  split_ifs with h1 h2 h3
  · exact ⟨_, rfl⟩
  · exact ⟨_, rfl⟩
  · exact ⟨_, rfl⟩
  · rcases h with (h | h) | h
    · exact absurd h h1
    · exact absurd h h2
    · exact absurd h h3

/-- What `hex.DecodeString` accepts, first half: decoded text has twice as many
characters as bytes, all of them hexadecimal. -/
theorem DecodeString_some : ∀ (n : Nat) (f : GoString), f.length ≤ n →
    ∀ data, DecodeString f = some data →
      f.length = 2 * data.length ∧ ∀ c ∈ f, isHexChar c = true := by
  intro n
  induction n with
  | zero =>
      intro f hf data hd
      have hnil : f = [] := List.length_eq_zero.mp (by omega)
      subst hnil
      simp only [DecodeString, Option.some.injEq] at hd
      subst hd
      simp
  | succ n ih =>
      intro f hf data hd
      match f, hf, hd with
      | [], _, hd =>
          simp only [DecodeString, Option.some.injEq] at hd
          subst hd
          simp
      | [_], _, hd => simp [DecodeString] at hd
      | p :: q :: rest, hf, hd =>
          simp only [DecodeString] at hd
          cases hp : fromHexChar p with
          | none => simp [hp] at hd
          | some a =>
              cases hq : fromHexChar q with
              | none => simp [hp, hq] at hd
              | some b =>
                  cases hr : DecodeString rest with
                  | none => simp [hp, hq, hr] at hd
                  | some d =>
                      simp only [hp, hq, hr, Option.some.injEq] at hd
                      subst hd
                      have hlen : rest.length ≤ n := by
                        simp only [List.length_cons] at hf
                        omega
                      obtain ⟨h1, h2⟩ := ih rest hlen d hr
                      refine ⟨by simp only [List.length_cons]; omega, ?_⟩
                      intro c hc
                      simp only [List.mem_cons] at hc
                      rcases hc with rfl | rfl | hc
                      · exact fromHexChar_some _ a hp
                      · exact fromHexChar_some _ b hq
                      · exact h2 c hc

/-- What `hex.DecodeString` accepts, second half. -/
theorem DecodeString_of_hex : ∀ (n : Nat) (f : GoString), f.length = 2 * n →
    (∀ c ∈ f, isHexChar c = true) →
    ∃ data, DecodeString f = some data ∧ data.length = n := by
  intro n
  induction n with
  | zero =>
      intro f hf _
      have hnil : f = [] := List.length_eq_zero.mp (by omega)
      subst hnil
      exact ⟨[], rfl, rfl⟩
  | succ n ih =>
      intro f hf hhex
      match f, hf, hhex with
      | [], hf, _ => simp at hf
      | [_], hf, _ =>
          simp only [List.length_cons, List.length_nil] at hf
          omega
      | p :: q :: rest, hf, hhex =>
          obtain ⟨a, ha⟩ := fromHexChar_of_isHexChar p (hhex p (by simp))
          obtain ⟨b, hb⟩ := fromHexChar_of_isHexChar q (hhex q (by simp))
          have hlen : rest.length = 2 * n := by
            simp only [List.length_cons] at hf
            omega
          obtain ⟨d, hd, hdl⟩ := ih rest hlen (fun c hc => hhex c (by simp [hc]))
          exact ⟨(a * 16 + b) :: d, by simp [DecodeString, ha, hb, hd], by simp [hdl]⟩

/-- The first field decodes to exactly 32 bytes exactly when it is 64
hexadecimal characters. -/
theorem DecodeString_32_iff (f : GoString) :
    (∃ data, DecodeString f = some data ∧ data.length = 32) ↔ isHex32 f := by
  constructor
  · rintro ⟨data, hd, hl⟩
    obtain ⟨h1, h2⟩ := DecodeString_some f.length f (le_refl _) data hd
    exact ⟨by omega, h2⟩
  · rintro ⟨hl, hh⟩
    exact DecodeString_of_hex 32 f (by omega) hh

theorem foldl_digits_ge (rest : GoString) :
    ∀ n : Nat, n ≤ rest.foldl (fun n c => n * 10 + (c.toNat - 48)) n := by
  induction rest with
  | nil => intro n; exact le_refl n
  | cons c rest ih =>
      intro n
      simp only [List.foldl_cons]
      have := ih (n * 10 + (c.toNat - 48))
      omega

/-- What the digit loop of `strconv.ParseUint` accepts, for a bit size of at
most 32: decimal digits whose number stays within the bit size. -/
theorem parseUintLoop_ok_iff (maxVal : Nat) (hmax : maxVal ≤ 4294967295) :
    ∀ (rest : GoString) (n v : Nat), n ≤ maxVal →
      (parseUintLoop maxVal rest n = .ok v ↔
        (∀ c ∈ rest, isDecChar c = true) ∧
          rest.foldl (fun n c => n * 10 + (c.toNat - 48)) n = v ∧ v ≤ maxVal) := by
  intro rest
  induction rest with
  | nil =>
      intro n v hn
      simp only [parseUintLoop, Except.ok.injEq, List.not_mem_nil, false_implies,
        implies_true, List.foldl_nil, true_and]
      constructor
      · intro h
        subst h
        exact ⟨rfl, hn⟩
      · intro h
        exact h.1
  | cons c rest ih =>
      intro n v hn
      by_cases hc : 48 ≤ c.toNat ∧ c.toNat ≤ 57
      · have hdec : isDecChar c = true := by simp [isDecChar, hc.1, hc.2]
        have hcut : ¬ n ≥ 1844674407370955162 := by omega
        have h10 : (n * 10) % 18446744073709551616 = n * 10 := Nat.mod_eq_of_lt (by omega)
        have h1 : (n * 10 + (c.toNat - 48)) % 18446744073709551616 = n * 10 + (c.toNat - 48) :=
          Nat.mod_eq_of_lt (by omega)
        simp only [parseUintLoop, hc, and_self, if_true, hcut, if_false, h10, h1,
          List.foldl_cons, List.mem_cons, forall_eq_or_imp, hdec, true_and]
        by_cases hbig : n * 10 + (c.toNat - 48) > maxVal
        · have hlt : ¬ n * 10 + (c.toNat - 48) < n * 10 := by omega
          simp only [hlt, hbig, or_true, if_true, reduceCtorEq, false_iff, not_and, not_le]
          intro _ hv
          have := foldl_digits_ge rest (n * 10 + (c.toNat - 48))
          omega
        · have hlt : ¬ n * 10 + (c.toNat - 48) < n * 10 := by omega
          simp only [hlt, hbig, or_self, if_false]
          exact ih (n * 10 + (c.toNat - 48)) v (by omega)
      · have hdec : isDecChar c = false := by
          simp only [isDecChar, Bool.and_eq_false_iff, decide_eq_false_iff_not]
          by_cases h48 : 48 ≤ c.toNat
          · exact Or.inr (fun h57 => hc ⟨h48, h57⟩)
          · exact Or.inl h48
        simp [parseUintLoop, hc, hdec]

/-- `strconv.ParseUint(s, 10, 32)` succeeds exactly on a decimal unsigned 32-bit
integer, with the number it denotes. -/
theorem ParseUint32_ok_iff (s : GoString) (v : Nat) :
    ParseUint32 s = .ok v ↔ isDecimalUint32 s ∧ decimalValue s = v := by
  unfold ParseUint32 isDecimalUint32 decimalValue
  by_cases hs : s = []
  · simp [hs]
  · simp only [hs, if_false, ne_eq, not_false_eq_true, true_and]
    rw [parseUintLoop_ok_iff 4294967295 (le_refl _) s 0 v (by omega)]
    constructor
    · rintro ⟨h1, h2, h3⟩
      exact ⟨⟨h1, by omega⟩, h2⟩
    · rintro ⟨⟨h1, h2⟩, h3⟩
      exact ⟨h1, h3, by omega⟩

theorem ParseUint32_error_iff (s : GoString) :
    (∃ err, ParseUint32 s = .error err) ↔ ¬ isDecimalUint32 s := by
  constructor
  · rintro ⟨err, he⟩ hdec
    have := (ParseUint32_ok_iff s (decimalValue s)).mpr ⟨hdec, rfl⟩
    rw [he] at this
    cases this
  · intro hdec
    cases hp : ParseUint32 s with
    | error err => exact ⟨err, rfl⟩
    | ok v => exact absurd ((ParseUint32_ok_iff s v).mp hp).1 hdec

theorem parseSequence_error_iff (input : List GoString) :
    (∃ err, parseSequence input = .error err) ↔
      (3 ≤ input.length ∧ ¬ isDecimalUint32 (input.getD 2 [])) := by
  unfold parseSequence
  by_cases h3 : input.length ≥ 3
  · simp only [h3, if_true, ge_iff_le, true_and]
    rw [← ParseUint32_error_iff]
    cases hp : ParseUint32 (input.getD 2 []) <;> simp
  · rw [if_neg h3]
    constructor
    · rintro ⟨err, he⟩
      cases he
    · rintro ⟨h, -⟩
      exact absurd h h3

/-- C22: `TxInputsFlag.Set(s)` returns an error exactly when `s` has fewer than
two colon-separated fields, or the first field is not hexadecimal text decoding
to exactly 32 bytes, or the second field is not a decimal unsigned 32-bit
integer, or a third field is present and is not one; on error the input list is
unchanged and on success it is the previous list with one input appended.  The
number of fields is the number of colons plus one. -/
theorem TxInputsFlag_Set_error_iff (txTypeRegular : GoString) (v : TxInputsFlag)
    (s : GoString) :
    ((TxInputsFlag.Set txTypeRegular v s).2 ≠ none ↔
      ((Split ':' s).length < 2 ∨ ¬ isHex32 ((Split ':' s).getD 0 []) ∨
        ¬ isDecimalUint32 ((Split ':' s).getD 1 []) ∨
        (3 ≤ (Split ':' s).length ∧ ¬ isDecimalUint32 ((Split ':' s).getD 2 [])))) ∧
    (∃ i, (TxInputsFlag.Set txTypeRegular v s).1.inputs =
      if (TxInputsFlag.Set txTypeRegular v s).2 = none then v.inputs ++ [i]
      else v.inputs) ∧
    (Split ':' s).length = s.count ':' + 1 := by
  refine ⟨?_, ?_, Split_length ':' s⟩
  · unfold TxInputsFlag.Set
    simp only
    by_cases hlen : (Split ':' s).length < 2
    · rw [if_pos hlen]
      exact ⟨fun _ => Or.inl hlen, fun _ => by simp⟩
    · rw [if_neg hlen]
      cases hd : DecodeString ((Split ':' s).getD 0 []) with
      | none =>
          have hhex : ¬ isHex32 ((Split ':' s).getD 0 []) := by
            intro hh
            obtain ⟨data, hdata, -⟩ := (DecodeString_32_iff _).mpr hh
            rw [hd] at hdata
            cases hdata
          exact ⟨fun _ => Or.inr (Or.inl hhex), fun _ => by simp⟩
      | some data =>
          by_cases h32 : data.length ≠ 32
          · have hhex : ¬ isHex32 ((Split ':' s).getD 0 []) := by
              intro hh
              obtain ⟨data1, hdata, hl⟩ := (DecodeString_32_iff _).mpr hh
              rw [hd] at hdata
              cases hdata
              exact h32 hl
            dsimp only
            rw [if_pos h32]
            exact ⟨fun _ => Or.inr (Or.inl hhex), fun _ => by simp⟩
          · have hhex : isHex32 ((Split ':' s).getD 0 []) :=
              (DecodeString_32_iff _).mp ⟨data, hd, by omega⟩
            dsimp only
            rw [if_neg h32]
            cases hi : ParseUint32 ((Split ':' s).getD 1 []) with
            | error err =>
                have hnd := (ParseUint32_error_iff _).mp ⟨err, hi⟩
                exact ⟨fun _ => Or.inr (Or.inr (Or.inl hnd)), fun _ => by simp⟩
            | ok index =>
                have hdec := ((ParseUint32_ok_iff _ index).mp hi).1
                cases hq : parseSequence (Split ':' s) with
                | error err =>
                    have hsq := (parseSequence_error_iff _).mp ⟨err, hq⟩
                    exact ⟨fun _ => Or.inr (Or.inr (Or.inr hsq)), fun _ => by simp⟩
                | ok seq =>
                    have hsq : ¬ (3 ≤ (Split ':' s).length ∧
                        ¬ isDecimalUint32 ((Split ':' s).getD 2 [])) := by
                      intro h
                      obtain ⟨err, herr⟩ := (parseSequence_error_iff _).mpr h
                      rw [hq] at herr
                      cases herr
                    constructor
                    · intro h
                      exact absurd rfl h
                    · rintro (h | h | h | h)
                      · exact absurd h hlen
                      · exact absurd hhex h
                      · exact absurd hdec h
                      · exact absurd h hsq
  · unfold TxInputsFlag.Set
    simp only
    by_cases hlen : (Split ':' s).length < 2
    · rw [if_pos hlen]
      exact ⟨⟨[], 0, 0, [], []⟩, by simp⟩
    · rw [if_neg hlen]
      cases hd : DecodeString ((Split ':' s).getD 0 []) with
      | none => exact ⟨⟨[], 0, 0, [], []⟩, by simp⟩
      | some data =>
          dsimp only
          by_cases h32 : data.length ≠ 32
          · rw [if_pos h32]
            exact ⟨⟨[], 0, 0, [], []⟩, by simp⟩
          · rw [if_neg h32]
            cases hi : ParseUint32 ((Split ':' s).getD 1 []) with
            | error err => exact ⟨⟨[], 0, 0, [], []⟩, by simp⟩
            | ok index =>
                cases hq : parseSequence (Split ':' s) with
                | error err => exact ⟨⟨[], 0, 0, [], []⟩, by simp⟩
                | ok seq =>
                    refine ⟨⟨data, index % 4294967296, seq % 4294967296,
                      if (Split ':' s).length ≥ 4 then (Split ':' s).getD 3 [] else txTypeRegular,
                      if (Split ':' s).length = 5 then (Split ':' s).getD 4 [] else []⟩, ?_⟩
                    dsimp only
                    rw [if_pos rfl]

theorem digitChar_decimal : ∀ k, k < 10 →
    isDecChar (Nat.digitChar k) = true ∧ (Nat.digitChar k).toNat - 48 = k := by
  decide

/-- The decimal rendering: digits only, never empty, denoting the number. -/
theorem toDigitsCore_decimal : ∀ (fuel n : Nat) (acc : GoString), n < fuel →
    (∀ c ∈ acc, isDecChar c = true) →
    Nat.toDigitsCore 10 fuel n acc ≠ [] ∧
    (∀ c ∈ Nat.toDigitsCore 10 fuel n acc, isDecChar c = true) ∧
    (Nat.toDigitsCore 10 fuel n acc).foldl (fun n c => n * 10 + (c.toNat - 48)) 0
      = acc.foldl (fun n c => n * 10 + (c.toNat - 48)) n := by
  intro fuel
  induction fuel with
  | zero => intro n acc hn; omega
  | succ fuel ih =>
      intro n acc hn hacc
      obtain ⟨hd1, hd2⟩ := digitChar_decimal (n % 10) (Nat.mod_lt n (by omega))
      have hacc1 : ∀ c ∈ Nat.digitChar (n % 10) :: acc, isDecChar c = true := by
        intro c hc
        simp only [List.mem_cons] at hc
        rcases hc with rfl | hc
        · exact hd1
        · exact hacc c hc
      by_cases h0 : n / 10 = 0
      · have hlt : n < 10 := by omega
        have hmod : n % 10 = n := Nat.mod_eq_of_lt hlt
        simp only [Nat.toDigitsCore, h0, if_true]
        refine ⟨by simp, hacc1, ?_⟩
        simp only [List.foldl_cons, hd2, Nat.zero_mul, Nat.zero_add]
        rw [hmod]
      · simp only [Nat.toDigitsCore, h0, if_false]
        obtain ⟨i1, i2, i3⟩ := ih (n / 10) (Nat.digitChar (n % 10) :: acc) (by omega) hacc1
        refine ⟨i1, i2, ?_⟩
        rw [i3]
        simp only [List.foldl_cons, hd2]
        have : n / 10 * 10 + n % 10 = n := by omega
        rw [this]

theorem ParseUint32_toDigits (v : Nat) (hv : v < 4294967296) :
    ParseUint32 (Nat.toDigits 10 v) = .ok v := by
  obtain ⟨h1, h2, h3⟩ := toDigitsCore_decimal (v + 1) v [] (by omega) (by simp)
  rw [ParseUint32_ok_iff]
  unfold isDecimalUint32 decimalValue Nat.toDigits
  simp only [List.foldl_nil] at h3
  exact ⟨⟨h1, h2, by omega⟩, h3⟩

/-- Decimal digits denoting a number beyond the bit size end the digit loop with
the range error. -/
theorem parseUintLoop_out_of_range (maxVal : Nat) (hmax : maxVal ≤ 4294967295) :
    ∀ (rest : GoString) (n : Nat), n ≤ maxVal → (∀ c ∈ rest, isDecChar c = true) →
      rest.foldl (fun n c => n * 10 + (c.toNat - 48)) n > maxVal →
      parseUintLoop maxVal rest n = .error .outOfRange := by
  intro rest
  induction rest with
  | nil =>
      intro n hn _ hbig
      simp only [List.foldl_nil] at hbig
      omega
  | cons c rest ih =>
      intro n hn hdec hbig
      have hc := hdec c (List.mem_cons_self c rest)
      simp only [isDecChar, Bool.and_eq_true, decide_eq_true_eq] at hc
      have hcut : ¬ n ≥ 1844674407370955162 := by omega
      have h10 : (n * 10) % 18446744073709551616 = n * 10 := Nat.mod_eq_of_lt (by omega)
      have h1 : (n * 10 + (c.toNat - 48)) % 18446744073709551616 = n * 10 + (c.toNat - 48) :=
        Nat.mod_eq_of_lt (by omega)
      have hlt : ¬ n * 10 + (c.toNat - 48) < n * 10 := by omega
      simp only [parseUintLoop, hc, and_self, if_true, hcut, if_false, h10, h1, hlt, false_or]
      by_cases hb : n * 10 + (c.toNat - 48) > maxVal
      · rw [if_pos hb]
      · rw [if_neg hb]
        exact ih (n * 10 + (c.toNat - 48)) (by omega)
          (fun c1 hc1 => hdec c1 (List.mem_cons_of_mem c hc1))
          (by simpa only [List.foldl_cons] using hbig)

/-- C23: for every unsigned 32-bit value `v`, `Set` applied to the `String()` of
`v` succeeds and stores exactly `v`, for `TxVersionFlag` and for
`TxLockTimeFlag`; and for every decimal string `s` denoting a number above
`2^32 - 1`, `Set` returns an error, the range error of `strconv.ParseUint`, and
leaves the flag unchanged. -/
theorem TxFlag_Set_String_roundtrip (ver lt v : Nat) (s : GoString)
    (hv : v < 4294967296) (hs : s ≠ []) (hdec : ∀ c ∈ s, isDecChar c = true)
    (hbig : decimalValue s > 4294967295) :
    TxVersionFlag.Set ver (TxVersionFlag.String v) = (v, none) ∧
    TxLockTimeFlag.Set lt (TxLockTimeFlag.String v) = (v, none) ∧
    TxVersionFlag.Set ver s = (ver, some .outOfRange) ∧
    TxLockTimeFlag.Set lt s = (lt, some .outOfRange) := by
  have hok := ParseUint32_toDigits v hv
  have hmod : v % 4294967296 = v := Nat.mod_eq_of_lt hv
  have herr : ParseUint32 s = .error .outOfRange := by
    unfold ParseUint32
    rw [if_neg hs]
    exact parseUintLoop_out_of_range 4294967295 (le_refl _) s 0 (by omega) hdec hbig
  simp [TxVersionFlag.Set, TxVersionFlag.String, TxLockTimeFlag.Set, TxLockTimeFlag.String,
    hok, hmod, herr]

/-- Witness of C23: the value `2^32 - 1` and the string `4294967296`. -/
theorem TxFlag_Set_String_roundtrip_witness :
    TxVersionFlag.Set 1 (TxVersionFlag.String 4294967295) = (4294967295, none) ∧
    TxLockTimeFlag.Set 2 (TxLockTimeFlag.String 4294967295) = (4294967295, none) ∧
    TxVersionFlag.Set 1 ['4', '2', '9', '4', '9', '6', '7', '2', '9', '6']
      = (1, some .outOfRange) ∧
    TxLockTimeFlag.Set 2 ['4', '2', '9', '4', '9', '6', '7', '2', '9', '6']
      = (2, some .outOfRange) :=
  TxFlag_Set_String_roundtrip 1 2 4294967295
    ['4', '2', '9', '4', '9', '6', '7', '2', '9', '6']
    (by decide) (by decide) (by decide) (by decide)

/-- The sample input is accepted: one input with index 1 and sequence 2 is
appended, with the regular transaction type and no address. -/
theorem TxInputsFlag_Set_sample :
    TxInputsFlag.Set ['t'] ⟨[]⟩ sampleInputText
      = (⟨[⟨List.replicate 32 170, 1, 2, ['t'], []⟩]⟩, none) ∧
    (TxInputsFlag.Set ['t'] ⟨[]⟩ ['a', 'b', ':', '1']).2 = some .hashLength ∧
    (TxInputsFlag.Set ['t'] ⟨[]⟩ ['a', 'b']).2 = some .parseInput := by
  decide

end Qx
